import Mathlib

/-!
ODP: CLI helper, ML capability stub and the style-transfer example

A shallow embedding of

* `platform/linux-generic/odp_ml.c` (`odp_ml_capability`),
* `platform/linux-generic/example/ml/style_transfer.c`
  (`hwc_to_chw`, `chw_to_hwc`, `prepare_infer_param`),
* the CLI helper declared in `helper/include/odp/helper/cli.h` and exercised by
  `helper/test/cli.c`.

Buffers that C code updates in place are functions from the element index to the
element; byte strings that are copied as a whole are lists of bytes.
-/

set_option autoImplicit false

/-! ## Bytes and single-precision values -/

/-- An octet: `png_byte`, `unsigned char`, one byte of memory. -/
abbrev Byte := Fin 256

/-- The values a C `float` can take. Finite values are carried as rationals
(every finite binary32 value is one); the two infinities and NaN are kept apart
because the comparisons of the source treat them differently. -/
inductive F32 where
  | finite (q : ℚ)
  | posInf
  | negInf
  | nan
  deriving DecidableEq

namespace F32

/-- Integer-to-float conversion of a `png_byte`: 0..255 are all exactly
representable. -/
def ofByte (b : Byte) : F32 := finite (b.val : ℚ)

/-- The C operator `<` on floats; every comparison with NaN is false. -/
def lt : F32 → F32 → Bool
  | nan, _ => false
  | _, nan => false
  | finite a, finite b => decide (a < b)
  | finite _, posInf => true
  | finite _, negInf => false
  | posInf, _ => false
  | negInf, negInf => false
  | negInf, _ => true

/-- The C operator `>` on floats. -/
def gt (a b : F32) : Bool := lt b a

/-- Truncation toward zero of a rational. -/
def trunc (q : ℚ) : ℤ := if 0 ≤ q then Rat.floor q else -Rat.floor (-q)

/-- The conversion `(png_byte)x`. The fractional part is discarded; when the
integral part does not fit an `unsigned char`, and for infinities and NaN, C
leaves the behaviour undefined: `none`. -/
def toByte : F32 → Option Byte
  | finite q => if h : 0 ≤ trunc q ∧ trunc q < 256 then
      some ⟨(trunc q).toNat, by omega⟩ else none
  | _ => none

/-- A value that is not NaN. -/
def ordered : F32 → Bool
  | nan => false
  | _ => true

end F32

/-! ## `odp_ml.c` -/

namespace OdpMl

/-- The C library `memset(s, c, n)` on a byte string: the first `n` bytes become
`(unsigned char)c`. -/
def memset (s : List Byte) (c : Nat) (n : Nat) : List Byte :=
  List.replicate (min n s.length) ⟨c % 256, Nat.mod_lt _ (by decide)⟩ ++ s.drop n

/-- The function `odp_ml_capability`. The record type `odp_ml_capability_t` is
declared in a header outside this development, so its size `sizeof_capa` is a
parameter and the record is the string of its bytes. Returns the return value
and the record as left behind. -/
def odp_ml_capability (sizeof_capa : Nat) (capa : List Byte) : Int × List Byte :=
  (-1, memset capa 0 sizeof_capa)

end OdpMl

/-! ## `style_transfer.c` -/

namespace StyleTransfer

def WIDTH : Nat := 720
def HEIGHT : Nat := 720
def NUM_CHANNELS : Nat := 3
def NUM_PIXELS : Nat := 720 * 720 * 3
def BATCH_SIZE : Nat := 1
def NUM_INPUT_SEGMENTS : Nat := 3
/-- The constant `sizeof(float)`. -/
def SIZEOF_FLOAT : Nat := 4

/-- Conversion of a `size_t` value to `uint32_t`. -/
def toU32 (n : Nat) : Nat := n % 2 ^ 32

/-- The inner loop of `hwc_to_chw` at pixel `i`:
`for (c = 0; c != NUM_CHANNELS; ++c) output[c * stride + i] = input[i * NUM_CHANNELS + c];`
-/
def hwc_to_chw_pixel (stride : Nat) (input : Nat → Byte) (i : Nat)
    (output : Nat → F32) : Nat → F32 :=
  (List.range NUM_CHANNELS).foldl
    (fun out c => Function.update out (c * stride + i) (F32.ofByte (input (i * NUM_CHANNELS + c))))
    output

/-- The loop nest of `hwc_to_chw` for a given `stride`. -/
def hwc_to_chw_loop (stride : Nat) (input : Nat → Byte) (output : Nat → F32) : Nat → F32 :=
  (List.range stride).foldl (fun out i => hwc_to_chw_pixel stride input i out) output

/-- The function `hwc_to_chw`: `stride = WIDTH * HEIGHT`. The second argument is
the output buffer as found, the result is the output buffer as left. -/
def hwc_to_chw (input : Nat → Byte) (output : Nat → F32) : Nat → F32 :=
  hwc_to_chw_loop (WIDTH * HEIGHT) input output

/-- The range test of `chw_to_hwc`:
`if (pixel < 0.f || pixel > 255.0f) pixel = 0;`. -/
def clampPixel (pixel : F32) : F32 :=
  if F32.lt pixel (F32.finite 0) || F32.gt pixel (F32.finite 255) then F32.finite 0 else pixel

/-- One iteration of the inner loop of `chw_to_hwc`:
`pixel = input[t + i]; if (...) pixel = 0; output[i * NUM_CHANNELS + c] = (png_byte)pixel;`
It is `none` when the cast is undefined. -/
def chw_to_hwc_step (input : Nat → F32) (t c i : Nat) (output : Nat → Byte) :
    Option (Nat → Byte) :=
  (F32.toByte (clampPixel (input (t + i)))).map
    (fun b => Function.update output (i * NUM_CHANNELS + c) b)

/-- The loop nest of `chw_to_hwc` for a given `stride`. -/
def chw_to_hwc_loop (stride : Nat) (input : Nat → F32) (output : Nat → Byte) :
    Option (Nat → Byte) :=
  (List.range NUM_CHANNELS).foldlM
    (fun out c =>
      (List.range stride).foldlM (fun o i => chw_to_hwc_step input (c * stride) c i o) out)
    output

/-- The function `chw_to_hwc`: `stride = WIDTH * HEIGHT`. -/
def chw_to_hwc (input : Nat → F32) (output : Nat → Byte) : Option (Nat → Byte) :=
  chw_to_hwc_loop (WIDTH * HEIGHT) input output

/-- The byte one iteration of `chw_to_hwc` stores for the value `v`, when the
cast is defined (0 stands in where it is not). -/
def pixelByte (v : F32) : Byte := (F32.toByte (clampPixel v)).getD 0

/-- One pass of the inner loop of `chw_to_hwc` over channel `c` with every cast
defined. -/
def chw_channel (stride : Nat) (input : Nat → F32) (c : Nat) (output : Nat → Byte) :
    Nat → Byte :=
  (List.range stride).foldl
    (fun o i => Function.update o (i * 3 + c) (pixelByte (input (c * stride + i)))) output

/-- The first `n` elements of a buffer. -/
def contents {α : Type} (n : Nat) (buf : Nat → α) : List α := (List.range n).map buf

/-- The indices of `output` that the loop nest of `hwc_to_chw` assigns, in the
order of execution. -/
def hwc_to_chw_writes (stride : Nat) : List Nat :=
  (List.range stride).flatMap
    (fun i => (List.range NUM_CHANNELS).map (fun c => c * stride + i))

/-- A data segment, `odp_ml_data_seg_t`: the size field and the bytes at `addr`. -/
structure Seg where
  size : Nat
  addr : List Byte
  deriving DecidableEq

/-- The fields of `odp_ml_data_t` that `prepare_infer_param` touches. -/
structure MlData where
  num_input_seg : Nat
  input_seg : List Seg
  num_output_seg : Nat
  output_seg : List Seg
  deriving DecidableEq

/-- The field of `odp_ml_run_param_t` that `prepare_infer_param` sets. -/
structure RunParam where
  batch_size : Nat
  deriving DecidableEq

/-- The call `memcpy(dst, src + off, n)` into a fresh block of `n` bytes: the
block afterwards. -/
def memcpy_from (src : List Byte) (off n : Nat) : List Byte := (src.drop off).take n

/-- The segment loop of `prepare_infer_param`, from index `i` on, with `n` rounds
left: `for (int i = 0; i < NUM_INPUT_SEGMENTS; i++) { ... }`. `malloc_ok k` tells
whether the `k`-th `malloc` of the function succeeds (the model input is call 0,
segment `i` is call `i + 1`). The flag is `false` when the loop body returns -1;
a failed `malloc` leaves a null `addr`, which holds no bytes. -/
def fill_segments (malloc_ok : Nat → Bool) (model_input : List Byte) (seg_size : Nat) :
    Nat → Nat → MlData → Bool × MlData
  | 0, _, data => (true, data)
  | n + 1, i, data =>
    if malloc_ok (i + 1) then
      fill_segments malloc_ok model_input seg_size n (i + 1)
        { data with
          input_seg := List.set data.input_seg i
            (Seg.mk seg_size (memcpy_from model_input (toU32 (i * seg_size)) seg_size)) }
    else
      (false, { data with input_seg := data.input_seg.set i (Seg.mk seg_size []) })

/-- The function `prepare_infer_param`. `read_png` is what `read_png_file` leaves
in `model_input`, as bytes (`none` when it fails). The result is the return value,
the data descriptor and the run parameters as left behind. -/
def prepare_infer_param (malloc_ok : Nat → Bool) (read_png : Option (List Byte))
    (data : MlData) (run_param : RunParam) : Int × MlData × RunParam :=
  let image_size := toU32 (NUM_PIXELS * SIZEOF_FLOAT)
  let seg_size := image_size / NUM_INPUT_SEGMENTS
  if !malloc_ok 0 then (-1, data, run_param) else
  match read_png with
  | none => (-1, data, run_param)
  | some model_input =>
    let run_param := { run_param with batch_size := BATCH_SIZE }
    let data := { data with num_input_seg := NUM_INPUT_SEGMENTS }
    match fill_segments malloc_ok model_input seg_size NUM_INPUT_SEGMENTS 0 data with
    | (false, data) => (-1, data, run_param)
    | (true, data) =>
      let data := { data with num_output_seg := 1 }
      if malloc_ok (NUM_INPUT_SEGMENTS + 1) then
        (0, { data with
              output_seg := List.set data.output_seg 0
                (Seg.mk image_size (List.replicate image_size 0)) }, run_param)
      else
        (-1, { data with output_seg := data.output_seg.set 0 (Seg.mk image_size []) },
          run_param)

/-- The alternative described in the comment above `prepare_infer_param`:
`data->input_seg[0].addr = model_input; data->num_input_seg = 1;`. -/
def single_segment_alternative (model_input : List Byte) (data : MlData) : MlData :=
  { data with
    input_seg := data.input_seg.modifyHead (fun s => { s with addr := model_input })
    num_input_seg := 1 }

/-- The bytes the ML runtime reads as model input: the first `num_input_seg`
segments, one after the other. -/
def input_bytes (data : MlData) : List Byte :=
  ((data.input_seg.take data.num_input_seg).map Seg.addr).flatten

end StyleTransfer

/-! ## The CLI helper: `helper/include/odp/helper/cli.h`, `helper/test/cli.c`

The header and the test are translated from the source. The implementation of
the helper is not part of the sources at hand; the definitions that stand for it
are modelled from the specification and say so. -/

namespace Cli

/-- A C string (a command name, a line of input, an address). -/
abbrev Str := List Char

/-- A `void *` hook argument: `none` is the null pointer, otherwise the string
it points to. -/
abbrev Arg := Option Str

/-- A reference to a user command function, `odph_cli_user_cmd_func_t`. -/
abbrev Handler := Nat

/-- The hook types `odph_cli_server_init_func_t` and
`odph_cli_server_term_func_t`: `int (*)(void *arg)`. -/
abbrev HookFn := Arg → Int

/-- The structure `odph_cli_param_t`. -/
structure odph_cli_param_t where
  address : Str
  port : Nat
  max_user_commands : Nat
  hostname : Str
  server_init_fn : Option HookFn
  server_init_fn_arg : Arg
  server_term_fn : Option HookFn
  server_term_fn_arg : Arg
  max_parent_commands : Nat

/-- Modelled from the spec: the body of `odph_cli_param_init` is not in the
sources. The defaults are those documented on the fields of `odph_cli_param_t`
and in the specification: address 127.0.0.1, port 55555, 50 user commands,
10 parent commands, no hooks. No default is documented for the hostname, which
is left as a parameter. -/
def odph_cli_param_init (default_hostname : Str) : odph_cli_param_t :=
  { address := "127.0.0.1".toList
    port := 55555
    max_user_commands := 50
    hostname := default_hostname
    server_init_fn := none
    server_init_fn_arg := none
    server_term_fn := none
    server_term_fn_arg := none
    max_parent_commands := 10 }

/-- Modelled from the spec: the lifecycle states of the Lifecycle Controller. -/
inductive Lifecycle where
  | UNINITIALIZED
  | INITIALIZED
  | RUNNING
  | STOPPED
  deriving DecidableEq, Repr

/-- Modelled from the spec: the error taxonomy of section 7 that the lifecycle
and registration entry points can report, with `AlreadyInitialized` of
section 4.2. -/
inductive CliError where
  | StateOrderViolation
  | AlreadyInitialized
  | NameConflict
  | UnknownParent
  | Capacity
  | BindFailed
  | ThreadSpawnFailed
  | InitHookFailed
  | TermHookFailed
  deriving DecidableEq, Repr

/-- The return value of a public entry point: 0 on success, negative on
failure (`@retval 0 Success`, `@retval <0 Failure`). -/
def retval : Option CliError → Int
  | none => 0
  | some _ => -1

/-- Modelled from the spec: a second-level Command Node. -/
structure SubCommand where
  name : Str
  help : Option Str
  handler : Handler
  deriving DecidableEq

/-- Modelled from the spec: a top-level Command Node with its ordered list of
child nodes (the namespace has two levels). -/
structure CommandNode where
  name : Str
  help : Option Str
  handler : Handler
  children : List SubCommand
  deriving DecidableEq

/-- Modelled from the spec: what the server thread and the lifecycle calls do,
in the order they do it. -/
inductive Event where
  | thread_spawned
  | init_hook (arg : Arg) (ret : Int)
  | listen_opened
  | accept_loop_entered
  | client_accepted
  | handler_invoked (handler : Handler) (argv : List Str)
  | builtin_run (name : Str)
  | unknown_command
  | client_closed
  | listen_closed
  | thread_joined
  | term_hook (arg : Arg) (ret : Int)
  deriving DecidableEq

/-- Modelled from the spec: an event that is the invocation of a hook. -/
def Event.is_hook : Event → Bool
  | Event.init_hook _ _ => true
  | Event.term_hook _ _ => true
  | _ => false

/-- Modelled from the spec: what the specification leaves to the surroundings
of the helper: whether the server thread can be spawned, whether the listening
socket can be bound to an address and port, and the name of the built-in
session-termination command, which the specification does not give. -/
structure Env where
  spawn_ok : Bool
  bind_ok : Str → Nat → Bool
  quit_command : Str

/-- Modelled from the spec: the process-wide state of the helper: Lifecycle
State, Server Parameters, Command Registry, the listening socket, the one
active client socket, the server thread, and the log of events. -/
structure CliState where
  lifecycle : Lifecycle
  param : Option odph_cli_param_t
  registry : List CommandNode
  listen_open : Bool
  client_open : Bool
  thread_alive : Bool
  trace : List Event

/-- Modelled from the spec: the state of a process before any call into the
helper, UNINITIALIZED with nothing open. -/
def CliState.initial : CliState :=
  { lifecycle := Lifecycle.UNINITIALIZED
    param := none
    registry := []
    listen_open := false
    client_open := false
    thread_alive := false
    trace := [] }

/-- Modelled from the spec: letters folded to lower case, for the
case-insensitive comparison of names. -/
def lower (s : Str) : Str := s.map Char.toLower

/-- Modelled from the spec: names are compared case-insensitively. -/
def names_equal (a b : Str) : Bool := decide (lower a = lower b)

/-- Modelled from the spec: the reserved names of the built-in commands `help`,
`history` and the session-termination command. -/
def reserved_names (env : Env) : List Str :=
  ["help".toList, "history".toList, env.quit_command]

/-- Modelled from the spec: a name that collides with a built-in command. -/
def is_reserved (env : Env) (name : Str) : Bool :=
  (reserved_names env).any (fun r => names_equal r name)

/-- Modelled from the spec: the top-level node with the given name. -/
def find_command (registry : List CommandNode) (name : Str) : Option CommandNode :=
  registry.find? (fun n => names_equal n.name name)

/-- Modelled from the spec: the child node with the given name. -/
def find_sub (children : List SubCommand) (name : Str) : Option SubCommand :=
  children.find? (fun n => names_equal n.name name)

/-- Modelled from the spec: the registry with `child` appended to the children
of the top-level node named `parent`. -/
def insert_child : List CommandNode → Str → SubCommand → List CommandNode
  | [], _, _ => []
  | n :: rest, parent, child =>
    if names_equal n.name parent then
      { n with children := n.children ++ [child] } :: rest
    else n :: insert_child rest parent child

/-- Modelled from the spec: the number of user commands in the registry,
top-level and child nodes together. -/
def command_count (registry : List CommandNode) : Nat :=
  registry.length + (registry.map (fun n => n.children.length)).sum

/-- Modelled from the spec: `init(config)` of section 4.2, the body of
`odph_cli_init`, which is not in the sources. Legal in UNINITIALIZED only;
`AlreadyInitialized` while INITIALIZED or RUNNING. -/
def odph_cli_init (s : CliState) (_inst : Nat) (param : odph_cli_param_t) :
    Option CliError × CliState :=
  match s.lifecycle with
  | Lifecycle.UNINITIALIZED =>
    (none, { s with lifecycle := Lifecycle.INITIALIZED, param := some param, registry := [] })
  | Lifecycle.INITIALIZED => (some CliError.AlreadyInitialized, s)
  | Lifecycle.RUNNING => (some CliError.AlreadyInitialized, s)
  | Lifecycle.STOPPED => (some CliError.StateOrderViolation, s)

/-- Modelled from the spec: `register(parent, name, handler, help)` of section
4.1, the body of `odph_cli_register_command`, which is not in the sources. Legal
in INITIALIZED only; `NameConflict` for a reserved name or a sibling of the same
name, `UnknownParent` for a parent that is not found, `Capacity` when the slot
limit is exhausted (children of one parent against `max_parent_commands`, all
commands against `max_user_commands`); no side effects on failure. -/
def odph_cli_register_command (env : Env) (s : CliState) (parent : Option Str) (name : Str)
    (func : Handler) (help : Option Str) : Option CliError × CliState :=
  match s.lifecycle, s.param with
  | Lifecycle.INITIALIZED, some param =>
    if is_reserved env name then (some CliError.NameConflict, s) else
    match parent with
    | none =>
      if (find_command s.registry name).isSome then (some CliError.NameConflict, s)
      else if param.max_user_commands ≤ command_count s.registry then
        (some CliError.Capacity, s)
      else (none, { s with registry := s.registry ++ [⟨name, help, func, []⟩] })
    | some p =>
      match find_command s.registry p with
      | none => (some CliError.UnknownParent, s)
      | some node =>
        if (find_sub node.children name).isSome then (some CliError.NameConflict, s)
        else if param.max_parent_commands ≤ node.children.length
            ∨ param.max_user_commands ≤ command_count s.registry then
          (some CliError.Capacity, s)
        else (none, { s with registry := insert_child s.registry p ⟨name, help, func⟩ })
  | _, _ => (some CliError.StateOrderViolation, s)

/-- Modelled from the spec: the event of running a hook, when one is configured. -/
def hook_events (mk : Arg → Int → Event) (fn : Option HookFn) (arg : Arg) : List Event :=
  match fn with
  | none => []
  | some f => [mk arg (f arg)]

/-- Modelled from the spec: the result of a hook, 0 when none is configured. -/
def hook_result (fn : Option HookFn) (arg : Arg) : Int :=
  match fn with
  | none => 0
  | some f => f arg

/-- Modelled from the spec: `start()` of section 4.2, the body of
`odph_cli_start`, which is not in the sources. Legal in INITIALIZED only. The
server thread is spawned; it first runs the init hook, if one is configured,
with its argument; a nonzero result is `InitHookFailed` and no socket is opened;
then the listening socket is opened and bound (`BindFailed`), and the thread
enters its accept loop. On failure the state stays INITIALIZED. -/
def odph_cli_start (env : Env) (s : CliState) : Option CliError × CliState :=
  match s.lifecycle, s.param with
  | Lifecycle.INITIALIZED, some param =>
    if !env.spawn_ok then (some CliError.ThreadSpawnFailed, s) else
    let hook := hook_events Event.init_hook param.server_init_fn param.server_init_fn_arg
    if hook_result param.server_init_fn param.server_init_fn_arg ≠ 0 then
      (some CliError.InitHookFailed,
        { s with trace := s.trace ++ [Event.thread_spawned] ++ hook ++ [Event.thread_joined] })
    else if !env.bind_ok param.address param.port then
      (some CliError.BindFailed,
        { s with trace := s.trace ++ [Event.thread_spawned] ++ hook ++ [Event.thread_joined] })
    else
      (none,
        { s with
          lifecycle := Lifecycle.RUNNING
          listen_open := true
          thread_alive := true
          trace := s.trace ++ [Event.thread_spawned] ++ hook
            ++ [Event.listen_opened, Event.accept_loop_entered] })
  | _, _ => (some CliError.StateOrderViolation, s)

/-- Modelled from the spec: `stop()` of section 4.2, the body of
`odph_cli_stop`, which is not in the sources. Legal in RUNNING only. The active
client session, if any, is closed, the listening socket is released, the thread
is joined, then the term hook, if one is configured, runs with its argument; a
nonzero result is reported but the state becomes STOPPED all the same. -/
def odph_cli_stop (s : CliState) : Option CliError × CliState :=
  match s.lifecycle, s.param with
  | Lifecycle.RUNNING, some param =>
    let closing := if s.client_open then [Event.client_closed] else []
    let hook := hook_events Event.term_hook param.server_term_fn param.server_term_fn_arg
    let s' : CliState :=
      { s with
        lifecycle := Lifecycle.STOPPED
        listen_open := false
        client_open := false
        thread_alive := false
        trace := s.trace ++ closing ++ [Event.listen_closed, Event.thread_joined] ++ hook }
    if hook_result param.server_term_fn param.server_term_fn_arg ≠ 0 then
      (some CliError.TermHookFailed, s')
    else (none, s')
  | _, _ => (some CliError.StateOrderViolation, s)

/-- Modelled from the spec: `term()` of section 4.2, the body of
`odph_cli_term`, which is not in the sources. Legal in INITIALIZED or STOPPED;
releases the Registry and the parameter storage. -/
def odph_cli_term (s : CliState) : Option CliError × CliState :=
  match s.lifecycle with
  | Lifecycle.INITIALIZED =>
    (none, { s with lifecycle := Lifecycle.UNINITIALIZED, param := none, registry := [] })
  | Lifecycle.STOPPED =>
    (none, { s with lifecycle := Lifecycle.UNINITIALIZED, param := none, registry := [] })
  | _ => (some CliError.StateOrderViolation, s)

/-- Modelled from the spec: the tokenizer of the Dispatcher, simple splitting at
whitespace with no quoting. `cur` is the token being read, last character
first. -/
def tokenize_from : Str → Str → List Str
  | cur, [] => if cur.isEmpty then [] else [cur.reverse]
  | cur, c :: cs =>
    if c.isWhitespace then
      if cur.isEmpty then tokenize_from [] cs else cur.reverse :: tokenize_from [] cs
    else tokenize_from (c :: cur) cs

/-- Modelled from the spec: a line split into its tokens. -/
def tokenize (line : Str) : List Str := tokenize_from [] line

/-- Modelled from the spec: `resolve(tokens)` of section 4.1: the most specific
node matching the first one or two tokens, a parent and child pair before the
top-level command of the parent's name; the result is the handler and the number
of tokens that named it. -/
def resolve (registry : List CommandNode) : List Str → Option (Handler × Nat)
  | [] => none
  | [t] => (find_command registry t).map (fun n => (n.handler, 1))
  | t :: u :: _ =>
    match find_command registry t with
    | none => none
    | some n =>
      match find_sub n.children u with
      | some child => some (child.handler, 2)
      | none => some (n.handler, 1)

/-- Modelled from the spec: what the Dispatcher does with a line. -/
inductive Dispatch where
  | builtin (name : Str) (argv : List Str)
  | invoke (handler : Handler) (argv : List Str)
  | unknown
  deriving DecidableEq

/-- Modelled from the spec: the Dispatcher of section 4.4: tokenize, match a
built-in name first, then resolve against the Registry; on a match the handler
gets the tokens that follow the matched name or names. -/
def dispatch (env : Env) (registry : List CommandNode) (line : Str) : Dispatch :=
  match tokenize line with
  | [] => Dispatch.unknown
  | t :: rest =>
    if is_reserved env t then Dispatch.builtin (lower t) rest
    else
      match resolve registry (t :: rest) with
      | some (h, n) => Dispatch.invoke h ((t :: rest).drop n)
      | none => Dispatch.unknown

/-- Modelled from the spec: what a client does between `start` and `stop`. -/
inductive ClientAct where
  | connect
  | send_line (line : Str)
  | disconnect

/-- Modelled from the spec: one step of the server thread in its accept loop
(sections 4.3 and 4.4). One client is served at a time; a line is dispatched
while a client is connected; the session-termination command and a disconnect
end the session. -/
def client_step (env : Env) (s : CliState) : ClientAct → CliState
  | ClientAct.connect =>
    if s.lifecycle = Lifecycle.RUNNING ∧ s.client_open = false then
      { s with client_open := true, trace := s.trace ++ [Event.client_accepted] }
    else s
  | ClientAct.disconnect =>
    if s.lifecycle = Lifecycle.RUNNING ∧ s.client_open = true then
      { s with client_open := false, trace := s.trace ++ [Event.client_closed] }
    else s
  | ClientAct.send_line line =>
    if s.lifecycle = Lifecycle.RUNNING ∧ s.client_open = true then
      match dispatch env s.registry line with
      | Dispatch.invoke h argv => { s with trace := s.trace ++ [Event.handler_invoked h argv] }
      | Dispatch.unknown => { s with trace := s.trace ++ [Event.unknown_command] }
      | Dispatch.builtin name _ =>
        if names_equal name env.quit_command then
          { s with
            client_open := false
            trace := s.trace ++ [Event.builtin_run name, Event.client_closed] }
        else { s with trace := s.trace ++ [Event.builtin_run name] }
    else s

/-- Modelled from the spec: the server thread serving a sequence of client
actions. -/
def serve (env : Env) (s : CliState) (acts : List ClientAct) : CliState :=
  acts.foldl (client_step env) s

/-- The function `test_default_cli_param` of `helper/test/cli.c`, run from the
state `s`; the result is its return value and the state it leaves. -/
def test_default_cli_param (env : Env) (default_hostname : Str) (s : CliState)
    (inst : Nat) : Int × CliState :=
  let cli_param := odph_cli_param_init default_hostname
  let r1 := odph_cli_init s inst cli_param
  if retval r1.1 ≠ 0 then (-1, r1.2) else
  let r2 := odph_cli_start env r1.2
  if retval r2.1 ≠ 0 then (-1, r2.2) else
  let r3 := odph_cli_stop r2.2
  if retval r3.1 ≠ 0 then (-1, r3.2) else
  let r4 := odph_cli_term r3.2
  if retval r4.1 ≠ 0 then (-1, r4.2) else
  (0, r4.2)

/-- The function `server_init_fn_test` of `helper/test/cli.c`: -1 unless the
argument is the string "arg-init". (The C dereferences its argument; a null
argument, which no caller here passes, is given -1.) -/
def server_init_fn_test : HookFn
  | some arg_str => if arg_str ≠ "arg-init".toList then -1 else 0
  | none => -1

/-- The function `server_term_fn_test` of `helper/test/cli.c`: -1 unless the
argument is the string "arg-term". -/
def server_term_fn_test : HookFn
  | some arg_str => if arg_str ≠ "arg-term".toList then -1 else 0
  | none => -1

/-- The parameters that `test_cli_param` of `helper/test/cli.c` passes to
`odph_cli_init`. -/
def test_cli_param_config (default_hostname : Str) : odph_cli_param_t :=
  { odph_cli_param_init default_hostname with
    hostname := "cli-test".toList
    server_init_fn := some server_init_fn_test
    server_init_fn_arg := some "arg-init".toList
    server_term_fn := some server_term_fn_test
    server_term_fn_arg := some "arg-term".toList }

/-- The function `test_cli_param` of `helper/test/cli.c`, run from the state
`s`; the result is its return value and the state it leaves. -/
def test_cli_param (env : Env) (default_hostname : Str) (s : CliState) (inst : Nat) :
    Int × CliState :=
  let cli_param := test_cli_param_config default_hostname
  let r1 := odph_cli_init s inst cli_param
  if retval r1.1 ≠ 0 then (-1, r1.2) else
  let r2 := odph_cli_start env r1.2
  if retval r2.1 ≠ 0 then (-1, r2.2) else
  let r3 := odph_cli_stop r2.2
  if retval r3.1 ≠ 0 then (-1, r3.2) else
  let r4 := odph_cli_term r3.2
  if retval r4.1 ≠ 0 then (-1, r4.2) else
  (0, r4.2)

/-- A client line: the typed command name followed by tokens, each preceded by
its separator. -/
def join_line (typed : Str) (rest : List (Str × Str)) : Str :=
  typed ++ rest.flatMap (fun p => p.1 ++ p.2)

/-- A token: not empty and free of whitespace. -/
def is_token (t : Str) : Prop := t ≠ [] ∧ ∀ c ∈ t, c.isWhitespace = false

/-- A separator: not empty and all whitespace. -/
def is_separator (t : Str) : Prop := t ≠ [] ∧ ∀ c ∈ t, c.isWhitespace = true

end Cli

namespace Cli

/-- Surroundings in which the thread can be spawned and every address can be
bound; the session-termination command is called `quit`. -/
def env_ok : Env := ⟨true, fun _ _ => true, "quit".toList⟩

/-- The helper initialized with default parameters. -/
def state_init : CliState :=
  (odph_cli_init CliState.initial 0 (odph_cli_param_init "odp".toList)).2

/-- The helper after the command `foo` has been registered with handler 1. -/
def state_foo : CliState :=
  (odph_cli_register_command env_ok state_init none "foo".toList 1 none).2

/-- The helper after the command `one` has also been registered under `foo`,
with handler 2. -/
def state_foo_one : CliState :=
  (odph_cli_register_command env_ok state_foo (some "foo".toList) "one".toList 2 none).2

/-- The helper after the commands `A` and `B` have been registered, with
handlers 1 and 2. -/
def state_a_b : CliState :=
  (odph_cli_register_command env_ok
    (odph_cli_register_command env_ok state_init none "A".toList 1 none).2
    none "B".toList 2 none).2

end Cli

namespace Cli

/-- The arguments of one call of `odph_cli_register_command`. -/
structure RegCall where
  parent : Option Str
  name : Str
  func : Handler
  help : Option Str

/-- The helper after a sequence of calls of `odph_cli_register_command`, each
successful or not. -/
def register_all (env : Env) (s : CliState) (calls : List RegCall) : CliState :=
  calls.foldl
    (fun s c => (odph_cli_register_command env s c.parent c.name c.func c.help).2) s

/-- The helper after `odph_cli_init` and a sequence of calls of
`odph_cli_register_command`. -/
def init_and_register (env : Env) (s : CliState) (inst : Nat) (param : odph_cli_param_t)
    (calls : List RegCall) : CliState :=
  register_all env (odph_cli_init s inst param).2 calls

/-- Modelled from the spec: the invariant of the Command Node data model:
sibling names never collide under case-insensitive comparison, at either
level, and no top-level name is a reserved name. -/
def registry_wf (env : Env) (registry : List CommandNode) : Prop :=
  (registry.map (fun n => lower n.name)).Nodup ∧
  ∀ n ∈ registry, is_reserved env n.name = false ∧
    (n.children.map (fun c => lower c.name)).Nodup

/-- The helper after a command whose name holds a blank, `my cmd`, has been
registered with handler 3. -/
def state_my_cmd : CliState :=
  (odph_cli_register_command env_ok state_init none "my cmd".toList 3 none).2

/-- The helper after a command with the empty name has been registered with
handler 4. -/
def state_empty_name : CliState :=
  (odph_cli_register_command env_ok state_init none [] 4 none).2

end Cli

/-! # Theorems -/

/-! ## Generic facts about loops that assign buffer elements -/

/-- A fold in `Option` whose every step succeeds is the plain fold. -/
theorem foldlM_option_eq_foldl {α β : Type} (f : β → α → Option β) (g : β → α → β)
    (l : List α) (h : ∀ b, ∀ a ∈ l, f b a = some (g b a)) (b : β) :
    l.foldlM f b = some (l.foldl g b) := by
  induction l generalizing b with
  | nil => rfl
  | cons a l ih =>
    rw [List.foldlM_cons, h b a (List.mem_cons_self _ _)]
    exact ih (fun b x hx => h b x (List.mem_cons_of_mem _ hx)) (g b a)

/-- A fold in `Option` whose first step fails, fails. -/
theorem foldlM_option_head_none {α β : Type} (f : β → α → Option β) (a : α) (l : List α)
    (b : β) (h : f b a = none) : (a :: l).foldlM f b = none := by
  rw [List.foldlM_cons, h]; rfl

/-- A loop `for i < n: out[f i] = v i` with pairwise distinct targets leaves `v i`
at `f i` and nothing else changed. -/
theorem foldl_update_range {β : Type} (f : Nat → Nat) (v : Nat → β)
    (hf : Function.Injective f) (out : Nat → β) (n : Nat) :
    (∀ i, i < n →
      (List.range n).foldl (fun o i => Function.update o (f i) (v i)) out (f i) = v i) ∧
    (∀ k, (∀ i, i < n → f i ≠ k) →
      (List.range n).foldl (fun o i => Function.update o (f i) (v i)) out k = out k) := by
  induction n with
  | zero => exact ⟨fun i hi => absurd hi (Nat.not_lt_zero i), fun k _ => rfl⟩
  | succ n ih =>
    rw [List.range_succ, List.foldl_append]
    simp only [List.foldl_cons, List.foldl_nil]
    refine ⟨fun i hi => ?_, fun k hk => ?_⟩
    · by_cases h : i = n
      · subst h; simp
      · have hne : f i ≠ f n := fun e => h (hf e)
        rw [Function.update_noteq hne]
        exact ih.1 i (by omega)
    · have hne : k ≠ f n := fun e => hk n (Nat.lt_succ_self n) e.symm
      rw [Function.update_noteq hne]
      exact ih.2 k (fun i hi => hk i (by omega))

namespace StyleTransfer

/-- The three assignments of the inner loop of `hwc_to_chw`. -/
theorem hwc_to_chw_pixel_eq (S : Nat) (input : Nat → Byte) (i : Nat) (out : Nat → F32) :
    hwc_to_chw_pixel S input i out =
      Function.update (Function.update (Function.update out (0 * S + i)
        (F32.ofByte (input (i * 3 + 0)))) (1 * S + i) (F32.ofByte (input (i * 3 + 1))))
        (2 * S + i) (F32.ofByte (input (i * 3 + 2))) := rfl

/-- Loop invariant of `hwc_to_chw`: after the first `n` pixels. -/
theorem hwc_to_chw_after (S : Nat) (input : Nat → Byte) (out : Nat → F32) (n : Nat)
    (hn : n ≤ S) :
    (∀ i c, i < n → c < 3 →
      (List.range n).foldl (fun o i => hwc_to_chw_pixel S input i o) out (c * S + i)
        = F32.ofByte (input (i * 3 + c))) ∧
    (∀ k, (∀ i c, i < n → c < 3 → k ≠ c * S + i) →
      (List.range n).foldl (fun o i => hwc_to_chw_pixel S input i o) out k = out k) := by
  induction n with
  | zero => exact ⟨fun i c hi => absurd hi (Nat.not_lt_zero i), fun k _ => rfl⟩
  | succ n ih =>
    have ih := ih (by omega)
    rw [List.range_succ, List.foldl_append]
    simp only [List.foldl_cons, List.foldl_nil, hwc_to_chw_pixel_eq]
    refine ⟨fun i c hi hc => ?_, fun k hk => ?_⟩
    · by_cases h : i = n
      · subst h
        interval_cases c
        · rw [Function.update_noteq (by omega), Function.update_noteq (by omega)]
          simp
        · rw [Function.update_noteq (by omega)]
          simp
        · simp
      · have hi1 : i < n := by omega
        rw [Function.update_noteq (by interval_cases c <;> omega),
          Function.update_noteq (by interval_cases c <;> omega),
          Function.update_noteq (by interval_cases c <;> omega)]
        exact ih.1 i c hi1 hc
    · have h0 := hk n 0 (Nat.lt_succ_self n) (by decide)
      have h1 := hk n 1 (Nat.lt_succ_self n) (by decide)
      have h2 := hk n 2 (Nat.lt_succ_self n) (by decide)
      rw [Function.update_noteq h2, Function.update_noteq h1, Function.update_noteq h0]
      exact ih.2 k (fun i c hi hc => hk i c (by omega) hc)

/-- What `hwc_to_chw_loop` leaves at the channel-first position of pixel `i`,
channel `c`. -/
theorem hwc_to_chw_loop_at (S : Nat) (input : Nat → Byte) (out : Nat → F32) (i c : Nat)
    (hi : i < S) (hc : c < 3) :
    hwc_to_chw_loop S input out (c * S + i) = F32.ofByte (input (i * 3 + c)) :=
  (hwc_to_chw_after S input out S (le_refl S)).1 i c hi hc

/-- The batteries floor is the floor of the ordered field `ℚ`. -/
theorem rat_floor_eq (q : ℚ) : Rat.floor q = ⌊q⌋ := rfl

theorem trunc_zero : F32.trunc 0 = 0 := by simp [F32.trunc, rat_floor_eq]

/-- Truncation of a non-negative value is its floor. -/
theorem trunc_of_nonneg (q : ℚ) (h : 0 ≤ q) : F32.trunc q = ⌊q⌋ := by
  simp [F32.trunc, h, rat_floor_eq]

theorem toByte_clampPixel_of_ordered (v : F32) (hv : F32.ordered v = true) :
    F32.toByte (clampPixel v) = some (pixelByte v) := by
  have key : ∀ w : F32, (∃ b, F32.toByte w = some b) →
      F32.toByte w = some ((F32.toByte w).getD 0) := by
    rintro w ⟨b, hb⟩; rw [hb]; rfl
  apply key
  have hz : ∃ b, F32.toByte (F32.finite 0) = some b :=
    ⟨⟨0, by decide⟩, by simp [F32.toByte, trunc_zero]⟩
  cases v with
  | nan => simp [F32.ordered] at hv
  | posInf => simpa [clampPixel, F32.lt, F32.gt] using hz
  | negInf => simpa [clampPixel, F32.lt, F32.gt] using hz
  | finite q =>
    by_cases h : q < 0 ∨ 255 < q
    · have : clampPixel (F32.finite q) = F32.finite 0 := by
        simp [clampPixel, F32.lt, F32.gt, h]
      rw [this]; exact hz
    · have : clampPixel (F32.finite q) = F32.finite q := by
        simp [clampPixel, F32.lt, F32.gt] at h ⊢
        intro h'; cases h' with
        | inl h1 => exact absurd h1 (not_lt.mpr h.1)
        | inr h2 => exact absurd h2 (not_lt.mpr h.2)
      rw [this]
      push_neg at h
      have h0 : 0 ≤ F32.trunc q := by
        rw [trunc_of_nonneg q h.1]; exact Int.floor_nonneg.mpr h.1
      have h1 : F32.trunc q < 256 := by
        rw [trunc_of_nonneg q h.1]
        exact Int.floor_lt.mpr (lt_of_le_of_lt h.2 (by norm_num))
      exact ⟨_, by simp [F32.toByte, h0, h1]; rfl⟩

end StyleTransfer

namespace StyleTransfer

/-- A byte survives the conversion to float, the range test and the cast. -/
theorem pixelByte_ofByte (x : Byte) : pixelByte (F32.ofByte x) = x := by
  have hx : (x.val : ℚ) ≤ 255 := by
    have : x.val ≤ 255 := by omega
    exact_mod_cast this
  have hc : clampPixel (F32.ofByte x) = F32.finite (x.val : ℚ) := by
    simp only [clampPixel, F32.ofByte, F32.lt, F32.gt]
    have h1 : ¬ ((x.val : ℚ) < 0) := not_lt.mpr (Nat.cast_nonneg _)
    have h2 : ¬ ((255 : ℚ) < (x.val : ℚ)) := not_lt.mpr hx
    simp [h1, h2]
  have ht : F32.trunc (x.val : ℚ) = (x.val : ℤ) := by
    rw [trunc_of_nonneg _ (Nat.cast_nonneg _)]
    exact Int.floor_natCast _
  have hb : F32.toByte (F32.finite (x.val : ℚ)) = some x := by
    have hlt : (x.val : ℤ) < 256 := by omega
    simp only [F32.toByte, ht]
    rw [dif_pos ⟨Int.natCast_nonneg _, hlt⟩]
    simp
  simp [pixelByte, hc, hb]

/-- The inner loop of `chw_to_hwc` on a channel without NaN. -/
theorem chw_to_hwc_channel_some (S : Nat) (input : Nat → F32) (c : Nat) (o : Nat → Byte)
    (h : ∀ i, i < S → F32.ordered (input (c * S + i)) = true) :
    (List.range S).foldlM (fun o i => chw_to_hwc_step input (c * S) c i o) o
      = some (chw_channel S input c o) := by
  unfold chw_channel
  apply foldlM_option_eq_foldl
  intro b i hi
  have hi : i < S := List.mem_range.mp hi
  simp [chw_to_hwc_step, toByte_clampPixel_of_ordered _ (h i hi), NUM_CHANNELS]

/-- Without NaN in the input, `chw_to_hwc_loop` is the three channel passes. -/
theorem chw_to_hwc_loop_some (S : Nat) (input : Nat → F32) (out : Nat → Byte)
    (h : ∀ k, k < 3 * S → F32.ordered (input k) = true) :
    chw_to_hwc_loop S input out
      = some (chw_channel S input 2 (chw_channel S input 1 (chw_channel S input 0 out))) := by
  have hr : List.range NUM_CHANNELS = [0, 1, 2] := rfl
  have h0 := chw_to_hwc_channel_some S input 0
  have h1 := chw_to_hwc_channel_some S input 1
  have h2 := chw_to_hwc_channel_some S input 2
  unfold chw_to_hwc_loop
  rw [hr, List.foldlM_cons, h0 _ (fun i hi => h _ (by omega))]
  simp only [Option.some_bind, Option.bind_eq_bind]
  rw [List.foldlM_cons, h1 _ (fun i hi => h _ (by omega))]
  simp only [Option.some_bind, Option.bind_eq_bind]
  rw [List.foldlM_cons, h2 _ (fun i hi => h _ (by omega))]
  simp only [Option.some_bind, Option.bind_eq_bind]
  rfl

/-- What one channel pass leaves behind. -/
theorem chw_channel_spec (S : Nat) (input : Nat → F32) (c : Nat) (o : Nat → Byte) :
    (∀ i, i < S → chw_channel S input c o (i * 3 + c) = pixelByte (input (c * S + i))) ∧
    (∀ k, (∀ i, i < S → i * 3 + c ≠ k) → chw_channel S input c o k = o k) :=
  foldl_update_range (fun i => i * 3 + c) (fun i => pixelByte (input (c * S + i)))
    (fun a b hab => by simp only at hab; omega) o S

/-- What the three channel passes leave at the channel-last position of pixel
`i`, channel `c`, and outside the image. -/
theorem chw_passes_spec (S : Nat) (input : Nat → F32) (out : Nat → Byte) :
    (∀ i c, i < S → c < 3 →
      chw_channel S input 2 (chw_channel S input 1 (chw_channel S input 0 out)) (i * 3 + c)
        = pixelByte (input (c * S + i))) ∧
    (∀ k, 3 * S ≤ k →
      chw_channel S input 2 (chw_channel S input 1 (chw_channel S input 0 out)) k = out k) := by
  refine ⟨fun i c hi hc => ?_, fun k hk => ?_⟩
  · interval_cases c
    · rw [(chw_channel_spec S input 2 _).2 _ (fun j _ => by omega),
        (chw_channel_spec S input 1 _).2 _ (fun j _ => by omega)]
      exact (chw_channel_spec S input 0 _).1 i hi
    · rw [(chw_channel_spec S input 2 _).2 _ (fun j _ => by omega)]
      exact (chw_channel_spec S input 1 _).1 i hi
    · exact (chw_channel_spec S input 2 _).1 i hi
  · rw [(chw_channel_spec S input 2 _).2 _ (fun j _ => by omega),
      (chw_channel_spec S input 1 _).2 _ (fun j _ => by omega),
      (chw_channel_spec S input 0 _).2 _ (fun j _ => by omega)]

/-- A NaN in the first element makes the first cast of `chw_to_hwc_loop`
undefined. -/
theorem chw_to_hwc_loop_nan (S : Nat) (input : Nat → F32) (out : Nat → Byte) (hS : 0 < S)
    (h : input 0 = F32.nan) : chw_to_hwc_loop S input out = none := by
  obtain ⟨n, rfl⟩ : ∃ n, S = n + 1 := ⟨S - 1, by omega⟩
  have hr : List.range NUM_CHANNELS = [0, 1, 2] := rfl
  have hstep : ∀ o, chw_to_hwc_step input (0 * (n + 1)) 0 0 o = none := by
    intro o
    simp [chw_to_hwc_step, h, clampPixel, F32.lt, F32.gt, F32.toByte]
  unfold chw_to_hwc_loop
  rw [hr, List.foldlM_cons, List.range_succ_eq_map,
    foldlM_option_head_none _ _ _ _ (hstep out)]
  rfl

/-- The map `(i, c) ↦ c * S + i` is a bijection from pixels × channels onto the
indices below `3 * S`. -/
theorem chw_index_bijOn (S : Nat) :
    Set.BijOn (fun p : Nat × Nat => p.2 * S + p.1) {p | p.1 < S ∧ p.2 < 3} {k | k < 3 * S} := by
  refine ⟨?_, ?_, ?_⟩
  · rintro ⟨i, c⟩ ⟨hi, hc⟩
    simp only [Set.mem_setOf_eq] at hi hc ⊢
    interval_cases c <;> omega
  · rintro ⟨i, c⟩ ⟨hi, hc⟩ ⟨j, d⟩ ⟨hj, hd⟩ he
    simp only [Set.mem_setOf_eq] at hi hc hj hd he
    have : c = d ∧ i = j := by
      interval_cases c <;> interval_cases d <;> omega
    rw [this.1, this.2]
  · intro k hk
    simp only [Set.mem_setOf_eq] at hk
    have hS : 0 < S := by omega
    refine ⟨(k % S, k / S), ⟨Nat.mod_lt _ hS, ?_⟩, ?_⟩
    · exact (Nat.div_lt_iff_lt_mul hS).mpr hk
    · show k / S * S + k % S = k
      rw [Nat.mul_comm]; exact Nat.div_add_mod k S

end StyleTransfer

namespace StyleTransfer

theorem num_pixels_eq : NUM_PIXELS = 3 * (WIDTH * HEIGHT) := by
  norm_num [NUM_PIXELS, WIDTH, HEIGHT]

/-- The loop nest of `hwc_to_chw` assigns no index twice. -/
theorem hwc_to_chw_writes_nodup (S : Nat) : (hwc_to_chw_writes S).Nodup := by
  unfold hwc_to_chw_writes
  have hr : List.range NUM_CHANNELS = [0, 1, 2] := rfl
  rw [List.nodup_flatMap, hr]
  refine ⟨fun i hi => ?_, ?_⟩
  · have hi : i < S := List.mem_range.mp hi
    have h01 : 0 * S + i ≠ 1 * S + i := by omega
    have h02 : 0 * S + i ≠ 2 * S + i := by omega
    have h12 : 1 * S + i ≠ 2 * S + i := by omega
    simp [h01, h02, h12]
    omega
  · refine (List.pairwise_lt_range S).imp_of_mem ?_
    intro a b ha hb hab
    have ha : a < S := List.mem_range.mp ha
    have hb : b < S := List.mem_range.mp hb
    simp only [Function.onFun, List.map_cons, List.map_nil]
    intro k hka hkb
    simp only [List.mem_cons, List.mem_singleton, List.not_mem_nil, or_false] at hka hkb
    omega

/-- The loop nest of `hwc_to_chw` assigns exactly the indices below `3 * S`. -/
theorem mem_hwc_to_chw_writes (S k : Nat) : k ∈ hwc_to_chw_writes S ↔ k < 3 * S := by
  unfold hwc_to_chw_writes
  have hr : List.range NUM_CHANNELS = [0, 1, 2] := rfl
  rw [hr]
  simp only [List.mem_flatMap, List.mem_range, List.map_cons, List.map_nil, List.mem_cons,
    List.mem_singleton, List.not_mem_nil, or_false]
  constructor
  · rintro ⟨i, hi, h⟩
    omega
  · intro hk
    have hS : 0 < S := by omega
    have h1 := Nat.div_add_mod k S
    have h2 := Nat.mod_lt k hS
    have h3 : k / S < 3 := (Nat.div_lt_iff_lt_mul hS).mpr hk
    refine ⟨k % S, h2, ?_⟩
    generalize k / S = c at h1 h3
    generalize k % S = r at h1 h2
    interval_cases c <;> omega

end StyleTransfer

namespace OdpMl

/-- C5: `odp_ml_capability` returns -1 and leaves every byte of the capability
record zero, whatever the record held before. -/
theorem odp_ml_capability_fails (sizeof_capa : Nat) (capa : List Byte)
    (h : capa.length = sizeof_capa) :
    (odp_ml_capability sizeof_capa capa).1 = -1 ∧
    (odp_ml_capability sizeof_capa capa).2 = List.replicate sizeof_capa 0 := by
  refine ⟨rfl, ?_⟩
  simp only [odp_ml_capability, memset]
  rw [← h, Nat.min_self, List.drop_length, List.append_nil]
  rfl

/-- Witness for C5: a record of four bytes. -/
theorem odp_ml_capability_fails_witness :
    ([1, 2, 3, 255] : List Byte).length = 4 ∧
    (odp_ml_capability 4 [1, 2, 3, 255]).1 = -1 ∧
    (odp_ml_capability 4 [1, 2, 3, 255]).2 = List.replicate 4 0 :=
  ⟨rfl, odp_ml_capability_fails 4 [1, 2, 3, 255] rfl⟩

end OdpMl

namespace StyleTransfer

/-- C7: `hwc_to_chw` puts the value of `input[i * 3 + c]` at
`output[c * (720 * 720) + i]` for every pixel `i` and channel `c`; the index map
is a bijection onto the indices below `720 * 720 * 3`, and the loop nest assigns
each of those indices once and no other. -/
theorem hwc_to_chw_channel_first (input : Nat → Byte) (output : Nat → F32) (i c : Nat)
    (hi : i < WIDTH * HEIGHT) (hc : c < NUM_CHANNELS) :
    hwc_to_chw input output (c * (WIDTH * HEIGHT) + i)
      = F32.ofByte (input (i * NUM_CHANNELS + c)) ∧
    Set.BijOn (fun p : Nat × Nat => p.2 * (WIDTH * HEIGHT) + p.1)
      {p | p.1 < WIDTH * HEIGHT ∧ p.2 < NUM_CHANNELS} {k | k < NUM_PIXELS} ∧
    (hwc_to_chw_writes (WIDTH * HEIGHT)).Nodup ∧
    (∀ k, k ∈ hwc_to_chw_writes (WIDTH * HEIGHT) ↔ k < NUM_PIXELS) := by
  refine ⟨hwc_to_chw_loop_at _ input output i c hi hc, ?_, hwc_to_chw_writes_nodup _, ?_⟩
  · rw [num_pixels_eq]; exact chw_index_bijOn _
  · intro k; rw [num_pixels_eq]; exact mem_hwc_to_chw_writes _ k

/-- Witness for C7: pixel 5, channel 1. -/
theorem hwc_to_chw_channel_first_witness :
    (5 < WIDTH * HEIGHT ∧ 1 < NUM_CHANNELS) ∧
    hwc_to_chw (fun k => Fin.ofNat k) (fun _ => F32.nan) (1 * (WIDTH * HEIGHT) + 5)
      = F32.ofByte (Fin.ofNat (5 * NUM_CHANNELS + 1)) :=
  ⟨⟨by decide, by decide⟩,
    (hwc_to_chw_channel_first (fun k => Fin.ofNat k) (fun _ => F32.nan) 5 1
      (by decide) (by decide)).1⟩

/-- C8: `chw_to_hwc` undoes `hwc_to_chw`: on the channel-first image of any
byte buffer every cast is defined and the 720 * 720 * 3 bytes written are the
bytes of the buffer. -/
theorem chw_to_hwc_hwc_to_chw (b : Nat → Byte) (out0 : Nat → F32) (out1 : Nat → Byte) :
    ∃ r, chw_to_hwc (hwc_to_chw b out0) out1 = some r ∧
      contents NUM_PIXELS r = contents NUM_PIXELS b := by
  have hval : ∀ i c, i < WIDTH * HEIGHT → c < 3 →
      hwc_to_chw b out0 (c * (WIDTH * HEIGHT) + i) = F32.ofByte (b (i * 3 + c)) :=
    fun i c hi hc => hwc_to_chw_loop_at _ b out0 i c hi hc
  have hS : 0 < WIDTH * HEIGHT := by decide
  have hord : ∀ k, k < 3 * (WIDTH * HEIGHT) → F32.ordered (hwc_to_chw b out0 k) = true := by
    intro k hk
    have h1 := Nat.div_add_mod k (WIDTH * HEIGHT)
    have h3 : k / (WIDTH * HEIGHT) < 3 := (Nat.div_lt_iff_lt_mul hS).mpr hk
    have := hval (k % (WIDTH * HEIGHT)) (k / (WIDTH * HEIGHT)) (Nat.mod_lt _ hS) h3
    rw [Nat.mul_comm, h1] at this
    rw [this]; rfl
  refine ⟨_, chw_to_hwc_loop_some _ _ out1 hord, ?_⟩
  unfold contents
  apply List.map_congr_left
  intro k hk
  have hk : k < 3 * (WIDTH * HEIGHT) := by
    rw [← num_pixels_eq]; exact List.mem_range.mp hk
  have h1 : k / 3 * 3 + k % 3 = k := by omega
  have h2 : k / 3 < WIDTH * HEIGHT := by omega
  have h3 : k % 3 < 3 := Nat.mod_lt _ (by decide)
  have := (chw_passes_spec (WIDTH * HEIGHT) (hwc_to_chw b out0) out1).1 (k / 3) (k % 3) h2 h3
  rw [h1, hval _ _ h2 h3, pixelByte_ofByte, h1] at this
  exact this

end StyleTransfer

namespace StyleTransfer

/-- Without NaN in the model output, `chw_to_hwc` is defined and stores
`pixelByte` of each value at its channel-last position. -/
theorem chw_to_hwc_of_ordered (input : Nat → F32) (output : Nat → Byte)
    (h : ∀ k, k < NUM_PIXELS → F32.ordered (input k) = true) :
    ∃ r, chw_to_hwc input output = some r ∧
      (∀ i c, i < WIDTH * HEIGHT → c < NUM_CHANNELS →
        r (i * NUM_CHANNELS + c) = pixelByte (input (c * (WIDTH * HEIGHT) + i))) ∧
      (∀ k, NUM_PIXELS ≤ k → r k = output k) := by
  rw [num_pixels_eq] at h
  refine ⟨_, chw_to_hwc_loop_some _ _ output h, ?_, ?_⟩
  · exact (chw_passes_spec (WIDTH * HEIGHT) input output).1
  · intro k hk
    rw [num_pixels_eq] at hk
    exact (chw_passes_spec (WIDTH * HEIGHT) input output).2 k hk

/-- A value below 0 or above 255 is stored as 0: no saturation. -/
theorem pixelByte_out_of_range (v : F32)
    (h : F32.lt v (F32.finite 0) = true ∨ F32.gt v (F32.finite 255) = true) :
    pixelByte v = 0 := by
  have hc : clampPixel v = F32.finite 0 := by
    unfold clampPixel
    rcases h with h | h <;> simp [h]
  have hz : F32.toByte (F32.finite 0) = some 0 := by
    simp [F32.toByte, trunc_zero]
  simp [pixelByte, hc, hz]

/-- A finite value in [0, 255] is stored truncated toward zero. -/
theorem pixelByte_in_range (q : ℚ) (h0 : 0 ≤ q) (h1 : q ≤ 255) :
    ((pixelByte (F32.finite q)).val : ℤ) = F32.trunc q := by
  have hc : clampPixel (F32.finite q) = F32.finite q := by
    simp [clampPixel, F32.lt, F32.gt, not_lt.mpr h0, not_lt.mpr h1]
  have t0 : 0 ≤ F32.trunc q := by
    rw [trunc_of_nonneg q h0]; exact Int.floor_nonneg.mpr h0
  have t1 : F32.trunc q < 256 := by
    rw [trunc_of_nonneg q h0]
    exact Int.floor_lt.mpr (lt_of_le_of_lt h1 (by norm_num))
  simp only [pixelByte, hc, F32.toByte]
  rw [dif_pos ⟨t0, t1⟩]
  simp only [Option.getD_some]
  omega

/-- C9: a NaN in the model output passes the range test of `chw_to_hwc`
unchanged (both comparisons are false), so the byte cast is applied to NaN, a
value outside [0, 255] for which the cast is undefined. -/
theorem chw_to_hwc_nan_reaches_cast :
    F32.lt F32.nan (F32.finite 0) = false ∧
    F32.gt F32.nan (F32.finite 255) = false ∧
    clampPixel F32.nan = F32.nan ∧
    F32.toByte (clampPixel F32.nan) = none ∧
    chw_to_hwc (fun _ => F32.nan) (fun _ => 0) = none :=
  ⟨rfl, rfl, rfl, rfl, chw_to_hwc_loop_nan _ _ _ (by decide) rfl⟩

/-- Three consecutive slices of length `n` make up a string of length `3 * n`. -/
theorem three_slices {α : Type} (l : List α) (n : Nat) (h : l.length = 3 * n) :
    (l.drop 0).take n ++ ((l.drop n).take n ++ (l.drop (2 * n)).take n) = l := by
  have h3 : (l.drop (2 * n)).take n = l.drop (2 * n) :=
    List.take_of_length_le (by rw [List.length_drop]; omega)
  have h2 : l.drop (2 * n) = (l.drop n).drop n := by
    rw [List.drop_drop]; congr 1; omega
  rw [h3, h2, List.drop_zero, List.take_append_drop, List.take_append_drop]

/-- The sizes computed at the head of `prepare_infer_param`. -/
theorem image_size_eq : toU32 (NUM_PIXELS * SIZEOF_FLOAT) = 6220800 := by
  norm_num [toU32, NUM_PIXELS, SIZEOF_FLOAT]

/-- C6: when every allocation succeeds and the image is read,
`prepare_infer_param` returns 0 with exactly 3 input segments of 2073600 bytes
each, segment `i` holding bytes `[i * 2073600, (i + 1) * 2073600)` of the model
input; the image size 6220800 is a multiple of 3 and fits `uint32_t`, and the
segments one after the other are the whole model input, the same bytes as the
single-segment alternative passes. -/
theorem prepare_infer_param_segments (malloc_ok : Nat → Bool) (model_input : List Byte)
    (data : MlData) (run_param : RunParam)
    (hm : ∀ k, k ≤ NUM_INPUT_SEGMENTS + 1 → malloc_ok k = true)
    (hlen : model_input.length = NUM_PIXELS * SIZEOF_FLOAT)
    (hseg : data.input_seg.length = NUM_INPUT_SEGMENTS) :
    (prepare_infer_param malloc_ok (some model_input) data run_param).1 = 0 ∧
    (prepare_infer_param malloc_ok (some model_input) data run_param).2.1.num_input_seg
      = NUM_INPUT_SEGMENTS ∧
    (prepare_infer_param malloc_ok (some model_input) data run_param).2.1.input_seg
      = [⟨2073600, (model_input.drop (0 * 2073600)).take 2073600⟩,
         ⟨2073600, (model_input.drop (1 * 2073600)).take 2073600⟩,
         ⟨2073600, (model_input.drop (2 * 2073600)).take 2073600⟩] ∧
    (NUM_PIXELS * SIZEOF_FLOAT) % NUM_INPUT_SEGMENTS = 0 ∧
    NUM_PIXELS * SIZEOF_FLOAT = 6220800 ∧
    NUM_PIXELS * SIZEOF_FLOAT < 2 ^ 32 ∧
    input_bytes (prepare_infer_param malloc_ok (some model_input) data run_param).2.1
      = model_input ∧
    input_bytes (prepare_infer_param malloc_ok (some model_input) data run_param).2.1
      = input_bytes (single_segment_alternative model_input data) := by
  have m0 := hm 0 (by decide)
  have m1 := hm 1 (by decide)
  have m2 := hm 2 (by decide)
  have m3 := hm 3 (by decide)
  have m4 := hm 4 (by decide)
  have hl : model_input.length = 3 * 2073600 := by
    rw [hlen]; norm_num [NUM_PIXELS, SIZEOF_FLOAT]
  obtain ⟨nis, segs, nos, osegs⟩ := data
  simp only at hseg
  match segs, hseg with
  | [a, b, c], _ =>
    have hseg3 : (6220800 : Nat) / NUM_INPUT_SEGMENTS = 2073600 := by
      norm_num [NUM_INPUT_SEGMENTS]
    have hrun : prepare_infer_param malloc_ok (some model_input) ⟨nis, [a, b, c], nos, osegs⟩
          run_param
        = (0, ⟨3, [⟨2073600, (model_input.drop (0 * 2073600)).take 2073600⟩,
                  ⟨2073600, (model_input.drop (1 * 2073600)).take 2073600⟩,
                  ⟨2073600, (model_input.drop (2 * 2073600)).take 2073600⟩], 1,
                osegs.set 0 ⟨6220800, List.replicate 6220800 0⟩⟩,
            ⟨BATCH_SIZE⟩) := by
      simp only [prepare_infer_param, image_size_eq, hseg3, m0, Bool.not_true,
        Bool.false_eq_true, if_false]
      simp only [NUM_INPUT_SEGMENTS, fill_segments, m1, m2, m3, m4, if_true, List.set,
        memcpy_from, toU32]
      norm_num
    rw [hrun]
    refine ⟨rfl, rfl, rfl, by norm_num [NUM_PIXELS, SIZEOF_FLOAT, NUM_INPUT_SEGMENTS],
      by norm_num [NUM_PIXELS, SIZEOF_FLOAT], by norm_num [NUM_PIXELS, SIZEOF_FLOAT], ?_, ?_⟩
    · simp only [input_bytes, List.take, List.map, List.flatten, List.append_nil]
      have := three_slices model_input 2073600 hl
      simpa using this
    · simp only [input_bytes, single_segment_alternative, List.modifyHead, List.take, List.map,
        List.flatten, List.append_nil]
      have := three_slices model_input 2073600 hl
      simpa using this

/-- Witness for C6: an all-zero model input of 6220800 bytes, every
allocation succeeding, and the three-element segment array of `main`. -/
theorem prepare_infer_param_segments_witness :
    ((∀ k, k ≤ NUM_INPUT_SEGMENTS + 1 → (fun _ : Nat => true) k = true) ∧
      (List.replicate (NUM_PIXELS * SIZEOF_FLOAT) (0 : Byte)).length
        = NUM_PIXELS * SIZEOF_FLOAT ∧
      (MlData.mk 0 [⟨0, []⟩, ⟨0, []⟩, ⟨0, []⟩] 0 [⟨0, []⟩]).input_seg.length
        = NUM_INPUT_SEGMENTS) ∧
    (prepare_infer_param (fun _ => true)
      (some (List.replicate (NUM_PIXELS * SIZEOF_FLOAT) 0))
      (MlData.mk 0 [⟨0, []⟩, ⟨0, []⟩, ⟨0, []⟩] 0 [⟨0, []⟩]) ⟨0⟩).1 = 0 :=
  ⟨⟨fun _ _ => rfl, List.length_replicate _ _, rfl⟩,
    (prepare_infer_param_segments (fun _ => true)
      (List.replicate (NUM_PIXELS * SIZEOF_FLOAT) 0)
      (MlData.mk 0 [⟨0, []⟩, ⟨0, []⟩, ⟨0, []⟩] 0 [⟨0, []⟩]) ⟨0⟩
      (fun _ _ => rfl) (List.length_replicate _ _) rfl).1⟩

end StyleTransfer

namespace Cli

/-! ### The lifecycle calls in their legal states -/

theorem init_of_uninitialized (s : CliState) (inst : Nat) (p : odph_cli_param_t)
    (hs : s.lifecycle = Lifecycle.UNINITIALIZED) :
    odph_cli_init s inst p =
      (none, { s with lifecycle := Lifecycle.INITIALIZED, param := some p, registry := [] }) := by
  simp [odph_cli_init, hs]

theorem start_of_initialized (env : Env) (s : CliState) (p : odph_cli_param_t)
    (hs : s.lifecycle = Lifecycle.INITIALIZED) (hp : s.param = some p)
    (hspawn : env.spawn_ok = true)
    (hhook : hook_result p.server_init_fn p.server_init_fn_arg = 0)
    (hbind : env.bind_ok p.address p.port = true) :
    odph_cli_start env s =
      (none,
        { s with
          lifecycle := Lifecycle.RUNNING
          listen_open := true
          thread_alive := true
          trace := s.trace ++ [Event.thread_spawned]
            ++ hook_events Event.init_hook p.server_init_fn p.server_init_fn_arg
            ++ [Event.listen_opened, Event.accept_loop_entered] }) := by
  simp [odph_cli_start, hs, hp, hspawn, hhook, hbind]

theorem stop_of_running (s : CliState) (p : odph_cli_param_t)
    (hs : s.lifecycle = Lifecycle.RUNNING) (hp : s.param = some p) :
    odph_cli_stop s =
      (if hook_result p.server_term_fn p.server_term_fn_arg ≠ 0
        then some CliError.TermHookFailed else none,
        { s with
          lifecycle := Lifecycle.STOPPED
          listen_open := false
          client_open := false
          thread_alive := false
          trace := s.trace ++ (if s.client_open then [Event.client_closed] else [])
            ++ [Event.listen_closed, Event.thread_joined]
            ++ hook_events Event.term_hook p.server_term_fn p.server_term_fn_arg }) := by
  simp only [odph_cli_stop, hs, hp]
  split <;> rfl

theorem term_of_stopped (s : CliState) (hs : s.lifecycle = Lifecycle.STOPPED) :
    odph_cli_term s =
      (none, { s with lifecycle := Lifecycle.UNINITIALIZED, param := none, registry := [] }) := by
  simp [odph_cli_term, hs]

/-- C1: with the default parameters of `odph_cli_param_init`, in surroundings
where the server thread can be spawned and the default address and port can be
bound, `odph_cli_init`, `odph_cli_start`, `odph_cli_stop`, `odph_cli_term` each
return 0, and after `odph_cli_term` no listening socket, client socket or server
thread remains; `test_default_cli_param` returns 0. -/
theorem default_lifecycle_succeeds (env : Env) (default_hostname : Str) (inst : Nat)
    (s : CliState) (hs : s.lifecycle = Lifecycle.UNINITIALIZED)
    (hspawn : env.spawn_ok = true)
    (hbind : env.bind_ok "127.0.0.1".toList 55555 = true) :
    retval (odph_cli_init s inst (odph_cli_param_init default_hostname)).1 = 0 ∧
    retval (odph_cli_start env
      (odph_cli_init s inst (odph_cli_param_init default_hostname)).2).1 = 0 ∧
    retval (odph_cli_stop (odph_cli_start env
      (odph_cli_init s inst (odph_cli_param_init default_hostname)).2).2).1 = 0 ∧
    retval (odph_cli_term (odph_cli_stop (odph_cli_start env
      (odph_cli_init s inst (odph_cli_param_init default_hostname)).2).2).2).1 = 0 ∧
    (odph_cli_term (odph_cli_stop (odph_cli_start env
      (odph_cli_init s inst (odph_cli_param_init default_hostname)).2).2).2).2.listen_open
        = false ∧
    (odph_cli_term (odph_cli_stop (odph_cli_start env
      (odph_cli_init s inst (odph_cli_param_init default_hostname)).2).2).2).2.client_open
        = false ∧
    (odph_cli_term (odph_cli_stop (odph_cli_start env
      (odph_cli_init s inst (odph_cli_param_init default_hostname)).2).2).2).2.thread_alive
        = false ∧
    (odph_cli_term (odph_cli_stop (odph_cli_start env
      (odph_cli_init s inst (odph_cli_param_init default_hostname)).2).2).2).2.lifecycle
        = Lifecycle.UNINITIALIZED ∧
    (test_default_cli_param env default_hostname s inst).1 = 0 := by
  have h1 := init_of_uninitialized s inst (odph_cli_param_init default_hostname) hs
  have h2 := start_of_initialized env (odph_cli_init s inst
    (odph_cli_param_init default_hostname)).2 (odph_cli_param_init default_hostname)
    (by rw [h1]) (by rw [h1]) hspawn rfl hbind
  have h3 := stop_of_running (odph_cli_start env (odph_cli_init s inst
    (odph_cli_param_init default_hostname)).2).2 (odph_cli_param_init default_hostname)
    (by rw [h2]) (by rw [h2, h1])
  have h4 := term_of_stopped (odph_cli_stop (odph_cli_start env (odph_cli_init s inst
    (odph_cli_param_init default_hostname)).2).2).2 (by rw [h3])
  have r1 : retval (odph_cli_init s inst (odph_cli_param_init default_hostname)).1 = 0 := by
    rw [h1]; rfl
  have r2 : retval (odph_cli_start env
      (odph_cli_init s inst (odph_cli_param_init default_hostname)).2).1 = 0 := by
    rw [h2]; rfl
  have r3 : retval (odph_cli_stop (odph_cli_start env
      (odph_cli_init s inst (odph_cli_param_init default_hostname)).2).2).1 = 0 := by
    rw [h3]; rfl
  have r4 : retval (odph_cli_term (odph_cli_stop (odph_cli_start env
      (odph_cli_init s inst (odph_cli_param_init default_hostname)).2).2).2).1 = 0 := by
    rw [h4]; rfl
  refine ⟨r1, r2, r3, r4, by rw [h4, h3], by rw [h4, h3], by rw [h4, h3], by rw [h4], ?_⟩
  simp [test_default_cli_param, r1, r2, r3, r4]

/-- Witness for C1: the initial state, in surroundings that let the thread be
spawned and the socket be bound. -/
theorem default_lifecycle_succeeds_witness :
    (CliState.initial.lifecycle = Lifecycle.UNINITIALIZED ∧
      env_ok.spawn_ok = true ∧ env_ok.bind_ok "127.0.0.1".toList 55555 = true) ∧
    (test_default_cli_param env_ok "odp".toList CliState.initial 0).1 = 0 :=
  ⟨⟨rfl, rfl, rfl⟩,
    (default_lifecycle_succeeds env_ok "odp".toList 0 CliState.initial rfl rfl
      rfl).2.2.2.2.2.2.2.2⟩

end Cli

namespace Cli

/-! ### The accept loop between `start` and `stop` -/

/-- One step of the accept loop keeps the lifecycle state, the parameters and
the registry, and logs no hook event. -/
theorem client_step_frame (env : Env) (s : CliState) (a : ClientAct) :
    (client_step env s a).lifecycle = s.lifecycle ∧
    (client_step env s a).param = s.param ∧
    (client_step env s a).registry = s.registry ∧
    ∃ mid, (client_step env s a).trace = s.trace ++ mid ∧
      ∀ e ∈ mid, Event.is_hook e = false := by
  refine ⟨?_, ?_, ?_, ?_⟩
  · cases a <;> simp only [client_step] <;> (repeat' split) <;> rfl
  · cases a <;> simp only [client_step] <;> (repeat' split) <;> rfl
  · cases a <;> simp only [client_step] <;> (repeat' split) <;> rfl
  · cases a <;> simp only [client_step] <;> (repeat' split) <;>
      first
        | exact ⟨[_], rfl, by simp [Event.is_hook]⟩
        | exact ⟨[_, _], rfl, by simp [Event.is_hook]⟩
        | exact ⟨[], (List.append_nil _).symm, by simp⟩

/-- Serving clients keeps the lifecycle state, the parameters and the registry,
and logs no hook event. -/
theorem serve_frame (env : Env) (acts : List ClientAct) (s : CliState) :
    (serve env s acts).lifecycle = s.lifecycle ∧
    (serve env s acts).param = s.param ∧
    (serve env s acts).registry = s.registry ∧
    ∃ mid, (serve env s acts).trace = s.trace ++ mid ∧
      ∀ e ∈ mid, Event.is_hook e = false := by
  induction acts generalizing s with
  | nil => exact ⟨rfl, rfl, rfl, [], by simp [serve], by simp⟩
  | cons a acts ih =>
    obtain ⟨h1, h2, h3, m1, h4, h5⟩ := client_step_frame env s a
    obtain ⟨k1, k2, k3, m2, k4, k5⟩ := ih (client_step env s a)
    have hs : serve env s (a :: acts) = serve env (client_step env s a) acts := rfl
    rw [hs]
    refine ⟨k1.trans h1, k2.trans h2, k3.trans h3, m1 ++ m2, ?_, ?_⟩
    · rw [k4, h4, List.append_assoc]
    · intro e he
      rcases List.mem_append.mp he with h | h
      · exact h5 e h
      · exact k5 e h

/-- C2: with an init hook `f` with argument `a` and a term hook `g` with
argument `b` configured, in surroundings where the server thread can be spawned,
`odph_cli_start` runs `f` once, on `a`, before anything else the server thread
does; when `f a = 0` and the socket can be bound, the events from `start` to the
end of `stop`, whatever clients do in between, are: thread spawned, `f` run on
`a`, socket opened, accept loop entered, then events that are no hook runs, then
`g` run on `b` as the last event, with no client left connected. In the
configuration of `test_cli_param` both hooks return 0 and `odph_cli_init`,
`odph_cli_start`, `odph_cli_stop`, `odph_cli_term` all return 0. -/
theorem hooks_run_once (env : Env) (default_hostname : Str) (inst : Nat) (s : CliState)
    (p : odph_cli_param_t)
    (f g : HookFn) (a b : Arg) (acts : List ClientAct)
    (hs : s.lifecycle = Lifecycle.UNINITIALIZED)
    (hf : p.server_init_fn = some f) (ha : p.server_init_fn_arg = a)
    (hg : p.server_term_fn = some g) (hb : p.server_term_fn_arg = b)
    (hspawn : env.spawn_ok = true) :
    (∃ post, (odph_cli_start env (odph_cli_init s inst p).2).2.trace
        = s.trace ++ [Event.thread_spawned, Event.init_hook a (f a)] ++ post ∧
      ∀ e ∈ post, Event.is_hook e = false) ∧
    (f a = 0 → env.bind_ok p.address p.port = true →
      retval (odph_cli_start env (odph_cli_init s inst p).2).1 = 0 ∧
      (∃ mid, (odph_cli_stop (serve env
          (odph_cli_start env (odph_cli_init s inst p).2).2 acts)).2.trace
          = s.trace ++ [Event.thread_spawned, Event.init_hook a (f a), Event.listen_opened,
              Event.accept_loop_entered] ++ mid ++ [Event.term_hook b (g b)] ∧
        ∀ e ∈ mid, Event.is_hook e = false) ∧
      (odph_cli_stop (serve env
        (odph_cli_start env (odph_cli_init s inst p).2).2 acts)).2.client_open = false) ∧
    (env.bind_ok "127.0.0.1".toList 55555 = true →
      server_init_fn_test (some "arg-init".toList) = 0 ∧
      server_term_fn_test (some "arg-term".toList) = 0 ∧
      retval (odph_cli_init s inst (test_cli_param_config default_hostname)).1 = 0 ∧
      retval (odph_cli_start env
        (odph_cli_init s inst (test_cli_param_config default_hostname)).2).1 = 0 ∧
      retval (odph_cli_stop (odph_cli_start env
        (odph_cli_init s inst (test_cli_param_config default_hostname)).2).2).1 = 0 ∧
      retval (odph_cli_term (odph_cli_stop (odph_cli_start env
        (odph_cli_init s inst (test_cli_param_config default_hostname)).2).2).2).1 = 0 ∧
      (test_cli_param env default_hostname s inst).1 = 0) := by
  have h1 := init_of_uninitialized s inst p hs
  refine ⟨?_, ?_, ?_⟩
  · rw [h1]
    by_cases h0 : f a = 0
    · by_cases hbind : env.bind_ok p.address p.port = true
      · refine ⟨[Event.listen_opened, Event.accept_loop_entered], ?_, by simp [Event.is_hook]⟩
        simp [odph_cli_start, hspawn, hf, ha, hook_result, hook_events, h0, hbind]
      · refine ⟨[Event.thread_joined], ?_, by simp [Event.is_hook]⟩
        simp [odph_cli_start, hspawn, hf, ha, hook_result, hook_events, h0, hbind]
    · refine ⟨[Event.thread_joined], ?_, by simp [Event.is_hook]⟩
      simp [odph_cli_start, hspawn, hf, ha, hook_result, hook_events, h0]
  · intro h0 hbind
    have h2 := start_of_initialized env (odph_cli_init s inst p).2 p
      (by rw [h1]) (by rw [h1]) hspawn (by simp [hook_result, hf, ha, h0]) hbind
    obtain ⟨k1, k2, -, mid, k4, k5⟩ :=
      serve_frame env acts (odph_cli_start env (odph_cli_init s inst p).2).2
    have h3 := stop_of_running
      (serve env (odph_cli_start env (odph_cli_init s inst p).2).2 acts) p
      (by rw [k1, h2]) (by rw [k2, h2, h1])
    refine ⟨by rw [h2]; rfl, ?_, by rw [h3]⟩
    refine ⟨mid ++ (if (serve env (odph_cli_start env (odph_cli_init s inst p).2).2
        acts).client_open = true then [Event.client_closed] else [])
        ++ [Event.listen_closed, Event.thread_joined], ?_, ?_⟩
    · rw [h3]
      simp only [k4]
      rw [h2, h1]
      simp [hook_events, hf, ha, hg, hb]
    · intro e he
      rcases List.mem_append.mp he with h | h
      · rcases List.mem_append.mp h with h | h
        · exact k5 e h
        · split at h
          · simp at h; subst h; rfl
          · simp at h
      · simp at h
        rcases h with h | h <;> subst h <;> rfl
  · intro hbind
    have t1 := init_of_uninitialized s inst (test_cli_param_config default_hostname) hs
    have i0 : server_init_fn_test (some "arg-init".toList) = 0 := by decide
    have g0 : server_term_fn_test (some "arg-term".toList) = 0 := by decide
    have t2 := start_of_initialized env
      (odph_cli_init s inst (test_cli_param_config default_hostname)).2
      (test_cli_param_config default_hostname) (by rw [t1]) (by rw [t1]) hspawn i0 hbind
    have t3 := stop_of_running (odph_cli_start env (odph_cli_init s inst
      (test_cli_param_config default_hostname)).2).2 (test_cli_param_config default_hostname)
      (by rw [t2]) (by rw [t2, t1])
    have t4 := term_of_stopped (odph_cli_stop (odph_cli_start env (odph_cli_init s inst
      (test_cli_param_config default_hostname)).2).2).2 (by rw [t3])
    have r1 : retval (odph_cli_init s inst (test_cli_param_config default_hostname)).1 = 0 := by
      rw [t1]; rfl
    have r2 : retval (odph_cli_start env
        (odph_cli_init s inst (test_cli_param_config default_hostname)).2).1 = 0 := by
      rw [t2]; rfl
    have r3 : retval (odph_cli_stop (odph_cli_start env
        (odph_cli_init s inst (test_cli_param_config default_hostname)).2).2).1 = 0 := by
      rw [t3]
      have : hook_result (test_cli_param_config default_hostname).server_term_fn
          (test_cli_param_config default_hostname).server_term_fn_arg = 0 := g0
      simp [this, retval]
    have r4 : retval (odph_cli_term (odph_cli_stop (odph_cli_start env
        (odph_cli_init s inst (test_cli_param_config default_hostname)).2).2).2).1 = 0 := by
      rw [t4]; rfl
    refine ⟨i0, g0, r1, r2, r3, r4, ?_⟩
    simp [test_cli_param, r1, r2, r3, r4]

/-- Witness for C2: the configuration of `test_cli_param`, a client that
connects and sends a line, from the initial state. -/
theorem hooks_run_once_witness :
    (CliState.initial.lifecycle = Lifecycle.UNINITIALIZED ∧
      (test_cli_param_config "odp".toList).server_init_fn = some server_init_fn_test ∧
      (test_cli_param_config "odp".toList).server_init_fn_arg = some "arg-init".toList ∧
      (test_cli_param_config "odp".toList).server_term_fn = some server_term_fn_test ∧
      (test_cli_param_config "odp".toList).server_term_fn_arg = some "arg-term".toList ∧
      env_ok.spawn_ok = true) ∧
    (test_cli_param env_ok "odp".toList CliState.initial 0).1 = 0 :=
  ⟨⟨rfl, rfl, rfl, rfl, rfl, rfl⟩,
    ((hooks_run_once env_ok "odp".toList 0 CliState.initial
      (test_cli_param_config "odp".toList) server_init_fn_test server_term_fn_test
      (some "arg-init".toList) (some "arg-term".toList)
      [ClientAct.connect, ClientAct.send_line "help".toList] rfl rfl rfl rfl rfl rfl).2.2
      rfl).2.2.2.2.2.2⟩

end Cli

namespace Cli

/-! ### Tokenizing -/

/-- Reading the characters of a token extends the token being read. -/
theorem tokenize_from_token (tok : Str) (h : ∀ c ∈ tok, c.isWhitespace = false)
    (cur rest : Str) :
    tokenize_from cur (tok ++ rest) = tokenize_from (tok.reverse ++ cur) rest := by
  induction tok generalizing cur with
  | nil => rfl
  | cons c tok ih =>
    have hc : c.isWhitespace = false := h c (List.mem_cons_self _ _)
    have ht : ∀ d ∈ tok, d.isWhitespace = false := fun d hd => h d (List.mem_cons_of_mem _ hd)
    simp only [List.cons_append, tokenize_from, hc, Bool.false_eq_true, if_false,
      List.append_eq]
    rw [ih ht (c :: cur)]
    simp

/-- Whitespace with no token being read is skipped. -/
theorem tokenize_from_skip (sep : Str) (h : ∀ c ∈ sep, c.isWhitespace = true) (rest : Str) :
    tokenize_from [] (sep ++ rest) = tokenize_from [] rest := by
  induction sep with
  | nil => rfl
  | cons c sep ih =>
    have hc : c.isWhitespace = true := h c (List.mem_cons_self _ _)
    simp only [List.cons_append, tokenize_from, hc, if_true, List.isEmpty_nil, List.append_eq]
    exact ih (fun d hd => h d (List.mem_cons_of_mem _ hd))

/-- A separator ends the token being read. -/
theorem tokenize_from_separator (sep : Str) (hs : is_separator sep) (cur rest : Str)
    (hcur : cur ≠ []) :
    tokenize_from cur (sep ++ rest) = cur.reverse :: tokenize_from [] rest := by
  obtain ⟨hne, hall⟩ := hs
  cases sep with
  | nil => exact absurd rfl hne
  | cons c sep =>
    have hc : c.isWhitespace = true := hall c (List.mem_cons_self _ _)
    have he : cur.isEmpty = false := by
      cases cur with
      | nil => exact absurd rfl hcur
      | cons _ _ => rfl
    simp only [List.cons_append, tokenize_from, hc, if_true, he, Bool.false_eq_true, if_false,
      List.append_eq]
    rw [tokenize_from_skip sep (fun d hd => hall d (List.mem_cons_of_mem _ hd))]

/-- Tokens, each preceded by a separator, after a token being read. -/
theorem tokenize_from_join (rest : List (Str × Str))
    (h : ∀ p ∈ rest, is_separator p.1 ∧ is_token p.2) (cur : Str) (hcur : cur ≠ []) :
    tokenize_from cur (rest.flatMap (fun p => p.1 ++ p.2))
      = cur.reverse :: rest.map Prod.snd := by
  induction rest generalizing cur with
  | nil =>
    cases cur with
    | nil => exact absurd rfl hcur
    | cons _ _ => rfl
  | cons p rest ih =>
    obtain ⟨hsep, htok⟩ := h p (List.mem_cons_self _ _)
    have hrest : ∀ q ∈ rest, is_separator q.1 ∧ is_token q.2 :=
      fun q hq => h q (List.mem_cons_of_mem _ hq)
    simp only [List.flatMap_cons, List.append_assoc, List.map_cons]
    rw [tokenize_from_separator p.1 hsep cur _ hcur, tokenize_from_token p.2 htok.2,
      ih hrest (p.2.reverse ++ []) (by simpa using htok.1)]
    simp

/-- The tokens of a line made of a typed name and separated tokens. -/
theorem tokenize_join_line (typed : Str) (rest : List (Str × Str)) (ht : is_token typed)
    (h : ∀ p ∈ rest, is_separator p.1 ∧ is_token p.2) :
    tokenize (join_line typed rest) = typed :: rest.map Prod.snd := by
  unfold tokenize join_line
  rw [tokenize_from_token typed ht.2, tokenize_from_join rest h _ (by simpa using ht.1)]
  simp

/-! ### The registry -/

/-- Equality of names is equality of their lower-case forms. -/
theorem names_equal_iff (a b : Str) : names_equal a b = true ↔ lower a = lower b := by
  simp [names_equal]

/-- A name that equals a name that is not reserved is not reserved. -/
theorem is_reserved_congr (env : Env) (a b : Str) (h : lower a = lower b) :
    is_reserved env a = is_reserved env b := by
  simp [is_reserved, names_equal, h]

end Cli

namespace Cli

/-! ### From registration to dispatch -/

/-- Folding a letter to lower case does not change whether it is whitespace. -/
theorem isWhitespace_toLower (c : Char) : c.toLower.isWhitespace = c.isWhitespace := by
  by_cases h : c.toNat ≥ 65 ∧ c.toNat ≤ 90
  · have hc : c = Char.ofNat c.toNat := (Char.ofNat_toNat c).symm
    obtain ⟨h1, h2⟩ := h
    generalize c.toNat = n at hc h1 h2
    subst hc
    interval_cases n <;> decide
  · have : c.toLower = c := by
      simp only [Char.toLower, h, if_false]
    rw [this]

/-- A name that equals a token up to letter case is a token. -/
theorem is_token_of_lower_eq (a b : Str) (h : lower a = lower b) (hb : is_token b) :
    is_token a := by
  obtain ⟨hne, hall⟩ := hb
  refine ⟨?_, ?_⟩
  · intro ha
    subst ha
    cases b with
    | nil => exact hne rfl
    | cons _ _ => simp [lower] at h
  · intro c hc
    have hm : c.toLower ∈ lower a := List.mem_map.mpr ⟨c, hc, rfl⟩
    rw [h] at hm
    obtain ⟨d, hd, hdc⟩ := List.mem_map.mp hm
    rw [← isWhitespace_toLower c, ← hdc, isWhitespace_toLower d]
    exact hall d hd

/-- Among top-level nodes with distinct names, a node is found by its name in
any letter case. -/
theorem find_command_of_mem (registry : List CommandNode)
    (hnd : (registry.map (fun n => lower n.name)).Nodup) (node : CommandNode)
    (hmem : node ∈ registry) (typed : Str) (hci : lower typed = lower node.name) :
    find_command registry typed = some node := by
  induction registry with
  | nil => exact absurd hmem (List.not_mem_nil _)
  | cons m rest ih =>
    rw [List.map_cons, List.nodup_cons] at hnd
    unfold find_command
    rw [List.find?_cons]
    by_cases hm : names_equal m.name typed = true
    · rw [hm]
      rcases List.mem_cons.mp hmem with h | h
      · rw [h]
      · exfalso
        apply hnd.1
        rw [(names_equal_iff _ _).mp hm, hci]
        exact List.mem_map.mpr ⟨node, h, rfl⟩
    · have hm' : names_equal m.name typed = false := by simpa using hm
      rw [hm']
      rcases List.mem_cons.mp hmem with h | h
      · exfalso
        apply hm
        rw [names_equal_iff, ← h, hci]
      · exact ih hnd.2 h

/-- Among children with distinct names, a child is found by its name in any
letter case. -/
theorem find_sub_of_mem (children : List SubCommand)
    (hnd : (children.map (fun c => lower c.name)).Nodup) (child : SubCommand)
    (hmem : child ∈ children) (typed : Str) (hci : lower typed = lower child.name) :
    find_sub children typed = some child := by
  induction children with
  | nil => exact absurd hmem (List.not_mem_nil _)
  | cons m rest ih =>
    rw [List.map_cons, List.nodup_cons] at hnd
    unfold find_sub
    rw [List.find?_cons]
    by_cases hm : names_equal m.name typed = true
    · rw [hm]
      rcases List.mem_cons.mp hmem with h | h
      · rw [h]
      · exfalso
        apply hnd.1
        rw [(names_equal_iff _ _).mp hm, hci]
        exact List.mem_map.mpr ⟨child, h, rfl⟩
    · have hm' : names_equal m.name typed = false := by simpa using hm
      rw [hm']
      rcases List.mem_cons.mp hmem with h | h
      · exfalso
        apply hm
        rw [names_equal_iff, ← h, hci]
      · exact ih hnd.2 h

/-- No child has the typed name: the lookup among the children fails. -/
theorem find_sub_none_of_forall (children : List SubCommand) (typed : Str)
    (h : ∀ c ∈ children, lower c.name ≠ lower typed) : find_sub children typed = none := by
  unfold find_sub
  rw [List.find?_eq_none]
  intro c hc hn
  exact h c hc ((names_equal_iff _ _).mp hn)

/-- Adding a child keeps the top-level names. -/
theorem insert_child_names (registry : List CommandNode) (p : Str) (child : SubCommand) :
    (insert_child registry p child).map (fun n => lower n.name)
      = registry.map (fun n => lower n.name) := by
  induction registry with
  | nil => rfl
  | cons m rest ih =>
    unfold insert_child
    split
    · rfl
    · rw [List.map_cons, List.map_cons, ih]

/-- Adding a child keeps every node, its name and handler, and its children. -/
theorem insert_child_forward (registry : List CommandNode) (p : Str) (child : SubCommand)
    (n : CommandNode) (hn : n ∈ registry) :
    ∃ m ∈ insert_child registry p child,
      m.name = n.name ∧ m.handler = n.handler ∧ ∀ c ∈ n.children, c ∈ m.children := by
  induction registry with
  | nil => exact absurd hn (List.not_mem_nil _)
  | cons k rest ih =>
    unfold insert_child
    split
    · rcases List.mem_cons.mp hn with h | h
      · subst h
        exact ⟨_, List.mem_cons_self _ _, rfl, rfl,
          fun c hc => List.mem_append_left _ hc⟩
      · exact ⟨n, List.mem_cons_of_mem _ h, rfl, rfl, fun c hc => hc⟩
    · rcases List.mem_cons.mp hn with h | h
      · subst h
        exact ⟨n, List.mem_cons_self _ _, rfl, rfl, fun c hc => hc⟩
      · obtain ⟨m, hm, h1, h2, h3⟩ := ih h
        exact ⟨m, List.mem_cons_of_mem _ hm, h1, h2, h3⟩

/-- A node of the registry after adding a child is an old node, or the parent
the lookup finds with the child appended. -/
theorem insert_child_backward (registry : List CommandNode) (p : Str) (child : SubCommand)
    (m : CommandNode) (hm : m ∈ insert_child registry p child) :
    m ∈ registry ∨ ∃ n, find_command registry p = some n ∧
      m = { n with children := n.children ++ [child] } := by
  induction registry with
  | nil => exact absurd hm (List.not_mem_nil _)
  | cons k rest ih =>
    unfold insert_child at hm
    by_cases hk : names_equal k.name p = true
    · rw [if_pos hk] at hm
      rcases List.mem_cons.mp hm with h | h
      · exact Or.inr ⟨k, by simp [find_command, List.find?_cons, hk], h⟩
      · exact Or.inl (List.mem_cons_of_mem _ h)
    · rw [if_neg hk] at hm
      have hk' : names_equal k.name p = false := by simpa using hk
      rcases List.mem_cons.mp hm with h | h
      · exact Or.inl (h ▸ List.mem_cons_self _ _)
      · rcases ih h with h1 | ⟨n, h1, h2⟩
        · exact Or.inl (List.mem_cons_of_mem _ h1)
        · exact Or.inr ⟨n, by simpa [find_command, List.find?_cons, hk'] using h1, h2⟩

/-- What a call of `odph_cli_register_command` does to the registry: nothing
when it fails; a successful top-level call appends a node without children
whose name is not reserved and not yet present; a successful call with a parent
appends a child, whose name is not yet among the children, to the parent the
lookup finds. -/
theorem register_cases (env : Env) (s : CliState) (parent : Option Str) (name : Str)
    (func : Handler) (help : Option Str) :
    ((odph_cli_register_command env s parent name func help).1 ≠ none ∧
      (odph_cli_register_command env s parent name func help).2 = s) ∨
    (parent = none ∧ (odph_cli_register_command env s parent name func help).1 = none ∧
      is_reserved env name = false ∧ find_command s.registry name = none ∧
      (odph_cli_register_command env s parent name func help).2.registry
        = s.registry ++ [⟨name, help, func, []⟩]) ∨
    (∃ p node, parent = some p ∧
      (odph_cli_register_command env s parent name func help).1 = none ∧
      find_command s.registry p = some node ∧ find_sub node.children name = none ∧
      (odph_cli_register_command env s parent name func help).2.registry
        = insert_child s.registry p ⟨name, help, func⟩) := by
  cases hl : s.lifecycle <;> cases hp : s.param <;>
    try (left; simp [odph_cli_register_command, hl, hp]; done)
  rename_i param
  by_cases hres : is_reserved env name = true
  · left; simp [odph_cli_register_command, hl, hp, hres]
  have hres' : is_reserved env name = false := by simpa using hres
  cases parent with
  | none =>
    cases hf : find_command s.registry name with
    | some n => left; simp [odph_cli_register_command, hl, hp, hres', hf]
    | none =>
      by_cases hc : param.max_user_commands ≤ command_count s.registry
      · left; simp [odph_cli_register_command, hl, hp, hres', hf, hc]
      · right; left
        simp [odph_cli_register_command, hl, hp, hres', hf, hc]
  | some p =>
    cases hf : find_command s.registry p with
    | none => left; simp [odph_cli_register_command, hl, hp, hres', hf]
    | some node =>
      cases hs : find_sub node.children name with
      | some c => left; simp [odph_cli_register_command, hl, hp, hres', hf, hs]
      | none =>
        by_cases hc : param.max_parent_commands ≤ node.children.length
            ∨ param.max_user_commands ≤ command_count s.registry
        · left; simp [odph_cli_register_command, hl, hp, hres', hf, hs, hc]
        · right; right
          refine ⟨p, node, rfl, ?_, hf, hs, ?_⟩ <;>
            simp [odph_cli_register_command, hl, hp, hres', hf, hs, hc]

end Cli

namespace Cli

/-- A node of the registry with the same name, up to letter case, is found. -/
theorem find_command_isSome_of_mem (registry : List CommandNode) (node : CommandNode)
    (name : Str) (hmem : node ∈ registry) (hci : lower name = lower node.name) :
    (find_command registry name).isSome = true := by
  unfold find_command
  rw [List.find?_isSome]
  exact ⟨node, hmem, by simp [names_equal, hci]⟩

/-- Adding a child under one parent does not change which node another name
finds. -/
theorem find_command_insert_child_of_ne (registry : List CommandNode) (p q : Str)
    (child : SubCommand) (hne : lower p ≠ lower q) :
    find_command (insert_child registry p child) q = find_command registry q := by
  induction registry with
  | nil => rfl
  | cons n rest ih =>
    unfold insert_child
    by_cases hp : names_equal n.name p = true
    · have hq : names_equal n.name q = false := by
        rw [names_equal_iff] at hp
        simp only [names_equal, decide_eq_false_iff_not]
        intro h; exact hne (hp.symm.trans h)
      simp [hp, find_command, List.find?_cons, hq]
    · simp only [hp, Bool.false_eq_true, if_false]
      unfold find_command at ih ⊢
      rw [List.find?_cons, List.find?_cons, ih]

/-- Adding a child under a parent: the parent is found with the child appended. -/
theorem find_command_insert_child_self (registry : List CommandNode) (p : Str)
    (child : SubCommand) (node : CommandNode) (h : find_command registry p = some node) :
    find_command (insert_child registry p child) p
      = some { node with children := node.children ++ [child] } := by
  induction registry with
  | nil => simp [find_command] at h
  | cons n rest ih =>
    unfold insert_child
    by_cases hp : names_equal n.name p = true
    · have hn : n = node := by
        simpa [find_command, List.find?_cons, hp] using h
      subst hn
      simp [hp, find_command, List.find?_cons]
    · have hp' : names_equal n.name p = false := by simpa using hp
      have hrest : find_command rest p = some node := by
        simpa [find_command, List.find?_cons, hp'] using h
      simp only [hp, Bool.false_eq_true, if_false]
      have := ih hrest
      unfold find_command at this ⊢
      rw [List.find?_cons, hp']
      exact this

/-- Adding a child under a parent that exists adds one command. -/
theorem command_count_insert_child (registry : List CommandNode) (p : Str)
    (child : SubCommand) (node : CommandNode) (h : find_command registry p = some node) :
    command_count (insert_child registry p child) = command_count registry + 1 := by
  induction registry with
  | nil => simp [find_command] at h
  | cons n rest ih =>
    unfold insert_child
    by_cases hp : names_equal n.name p = true
    · simp [hp, command_count]; omega
    · have hp' : names_equal n.name p = false := by simpa using hp
      have hrest : find_command rest p = some node := by
        simpa [find_command, List.find?_cons, hp'] using h
      have := ih hrest
      simp only [hp, Bool.false_eq_true, if_false]
      simp only [command_count, List.length_cons, List.map_cons, List.sum_cons] at this ⊢
      omega

/-- A child appended to children that do not hold its name is found. -/
theorem find_sub_append_self (children : List SubCommand) (child : SubCommand)
    (h : find_sub children child.name = none) :
    find_sub (children ++ [child]) child.name = some child := by
  unfold find_sub at h ⊢
  rw [List.find?_append, h]
  simp [names_equal]

/-- Registration under an existing parent with free slots and a fresh name. -/
theorem register_child_ok (env : Env) (s : CliState) (param : odph_cli_param_t)
    (p name : Str) (func : Handler) (help : Option Str) (node : CommandNode)
    (hs : s.lifecycle = Lifecycle.INITIALIZED) (hp : s.param = some param)
    (hres : is_reserved env name = false)
    (hfind : find_command s.registry p = some node)
    (hfresh : find_sub node.children name = none)
    (hslots : node.children.length < param.max_parent_commands)
    (hcap : command_count s.registry < param.max_user_commands) :
    odph_cli_register_command env s (some p) name func help
      = (none, { s with registry := insert_child s.registry p ⟨name, help, func⟩ }) := by
  have h1 : ¬ param.max_parent_commands ≤ node.children.length := by omega
  have h2 : ¬ param.max_user_commands ≤ command_count s.registry := by omega
  simp [odph_cli_register_command, hs, hp, hres, hfind, hfresh, h1, h2]

/-- C4: names are compared case-insensitively among siblings. In the
INITIALIZED state, registering a top-level command whose name differs from that
of an existing top-level command only by letter case fails with `NameConflict`,
a negative return value, and leaves the state unchanged. Registering one name
under two different existing parents, neither of which has a child of that
name, with free slots, succeeds both times, and the name is then found under
both parents. -/
theorem register_case_insensitive_siblings :
    (∀ (env : Env) (s : CliState) (param : odph_cli_param_t) (node : CommandNode)
        (name : Str) (func : Handler) (help : Option Str),
      s.lifecycle = Lifecycle.INITIALIZED → s.param = some param →
      node ∈ s.registry → lower name = lower node.name →
      odph_cli_register_command env s none name func help = (some CliError.NameConflict, s) ∧
      retval (odph_cli_register_command env s none name func help).1 < 0) ∧
    (∀ (env : Env) (s : CliState) (param : odph_cli_param_t) (p1 p2 name : Str)
        (n1 n2 : CommandNode) (f1 f2 : Handler) (help1 help2 : Option Str),
      s.lifecycle = Lifecycle.INITIALIZED → s.param = some param →
      is_reserved env name = false →
      lower p1 ≠ lower p2 →
      find_command s.registry p1 = some n1 → find_command s.registry p2 = some n2 →
      find_sub n1.children name = none → find_sub n2.children name = none →
      n1.children.length < param.max_parent_commands →
      n2.children.length < param.max_parent_commands →
      command_count s.registry + 2 ≤ param.max_user_commands →
      retval (odph_cli_register_command env s (some p1) name f1 help1).1 = 0 ∧
      retval (odph_cli_register_command env
        (odph_cli_register_command env s (some p1) name f1 help1).2
        (some p2) name f2 help2).1 = 0 ∧
      (find_command (odph_cli_register_command env
          (odph_cli_register_command env s (some p1) name f1 help1).2
          (some p2) name f2 help2).2.registry p1).bind (fun n => find_sub n.children name)
        = some ⟨name, help1, f1⟩ ∧
      (find_command (odph_cli_register_command env
          (odph_cli_register_command env s (some p1) name f1 help1).2
          (some p2) name f2 help2).2.registry p2).bind (fun n => find_sub n.children name)
        = some ⟨name, help2, f2⟩) := by
  refine ⟨?_, ?_⟩
  · intro env s param node name func help hs hp hmem hci
    have hfound := find_command_isSome_of_mem s.registry node name hmem hci
    have h : odph_cli_register_command env s none name func help
        = (some CliError.NameConflict, s) := by
      by_cases hres : is_reserved env name = true
      · simp [odph_cli_register_command, hs, hp, hres]
      · simp [odph_cli_register_command, hs, hp, hres, hfound]
    exact ⟨h, by rw [h]; exact (by decide : (-1 : Int) < 0)⟩
  · intro env s param p1 p2 name n1 n2 f1 f2 help1 help2 hs hp hres hne hf1 hf2 hfr1 hfr2
      hsl1 hsl2 hcap
    have e1 := register_child_ok env s param p1 name f1 help1 n1 hs hp hres hf1 hfr1 hsl1
      (by omega)
    have hf2' : find_command (insert_child s.registry p1 ⟨name, help1, f1⟩) p2 = some n2 := by
      rw [find_command_insert_child_of_ne _ _ _ _ hne]; exact hf2
    have hcount := command_count_insert_child s.registry p1 ⟨name, help1, f1⟩ n1 hf1
    have e2 := register_child_ok env
      { s with registry := insert_child s.registry p1 ⟨name, help1, f1⟩ } param p2 name f2
      help2 n2 hs hp hres hf2' hfr2 hsl2 (by simp only [hcount]; omega)
    rw [e1]
    simp only
    rw [e2]
    refine ⟨rfl, rfl, ?_, ?_⟩
    · simp only
      rw [find_command_insert_child_of_ne _ _ _ _ (Ne.symm hne),
        find_command_insert_child_self _ _ _ _ hf1]
      exact find_sub_append_self n1.children ⟨name, help1, f1⟩ hfr1
    · simp only
      rw [find_command_insert_child_self _ _ _ _ hf2']
      exact find_sub_append_self n2.children ⟨name, help2, f2⟩ hfr2

/-- Witness for C4: after registering `A` and `B`, the name `a` is refused and
`show` is accepted under `A` and under `b`. -/
theorem register_case_insensitive_siblings_witness :
    (odph_cli_register_command env_ok state_a_b none "a".toList 7 none
        = (some CliError.NameConflict, state_a_b)) ∧
    retval (odph_cli_register_command env_ok state_a_b (some "A".toList) "show".toList 3
      none).1 = 0 ∧
    retval (odph_cli_register_command env_ok
      (odph_cli_register_command env_ok state_a_b (some "A".toList) "show".toList 3 none).2
      (some "b".toList) "show".toList 4 none).1 = 0 :=
  ⟨(register_case_insensitive_siblings.1 env_ok state_a_b (odph_cli_param_init "odp".toList)
      ⟨"A".toList, none, 1, []⟩ "a".toList 7 none rfl rfl (by decide) (by decide)).1,
    (register_case_insensitive_siblings.2 env_ok state_a_b (odph_cli_param_init "odp".toList)
      "A".toList "b".toList "show".toList ⟨"A".toList, none, 1, []⟩
      ⟨"B".toList, none, 2, []⟩ 3 4 none none rfl rfl (by decide) (by decide) (by decide)
      (by decide) (by decide)
      (by decide) (by decide) (by decide) (by decide)).1,
    (register_case_insensitive_siblings.2 env_ok state_a_b (odph_cli_param_init "odp".toList)
      "A".toList "b".toList "show".toList ⟨"A".toList, none, 1, []⟩
      ⟨"B".toList, none, 2, []⟩ 3 4 none none rfl rfl (by decide) (by decide) (by decide)
      (by decide) (by decide)
      (by decide) (by decide) (by decide) (by decide)).2.1⟩

end Cli

namespace Cli

/-- A call of `odph_cli_register_command` keeps the invariant of the registry. -/
theorem registry_wf_register (env : Env) (s : CliState) (parent : Option Str) (name : Str)
    (func : Handler) (help : Option Str) (h : registry_wf env s.registry) :
    registry_wf env (odph_cli_register_command env s parent name func help).2.registry := by
  rcases register_cases env s parent name func help with
    ⟨-, h2⟩ | ⟨-, -, hres, hf, hreg⟩ | ⟨p, node, -, -, hf, hs, hreg⟩
  · rw [h2]; exact h
  · rw [hreg]
    have hnew : lower name ∉ s.registry.map (fun n => lower n.name) := by
      intro hm
      obtain ⟨n, hn, hnn⟩ := List.mem_map.mp hm
      have := List.find?_eq_none.mp hf n hn
      exact this ((names_equal_iff _ _).mpr hnn)
    refine ⟨?_, ?_⟩
    · rw [List.map_append, List.nodup_append]
      refine ⟨h.1, by simp, ?_⟩
      intro x hx hx'
      simp only [List.map_cons, List.map_nil, List.mem_singleton] at hx'
      exact hnew (hx' ▸ hx)
    · intro n hn
      rcases List.mem_append.mp hn with h1 | h1
      · exact h.2 n h1
      · simp only [List.mem_singleton] at h1
        subst h1
        exact ⟨hres, by simp⟩
  · rw [hreg]
    refine ⟨by rw [insert_child_names]; exact h.1, ?_⟩
    intro m hm
    rcases insert_child_backward _ _ _ m hm with h1 | ⟨n, h1, h2⟩
    · exact h.2 m h1
    · have hn : n = node := Option.some.inj (h1.symm.trans hf)
      subst hn
      have hmem : n ∈ s.registry := List.mem_of_find?_eq_some h1
      subst h2
      refine ⟨(h.2 n hmem).1, ?_⟩
      show ((n.children ++ [SubCommand.mk name help func]).map
        (fun c : SubCommand => lower c.name)).Nodup
      rw [List.map_append, List.nodup_append]
      refine ⟨(h.2 n hmem).2, by simp, ?_⟩
      intro x hx hx'
      simp only [List.map_cons, List.map_nil, List.mem_singleton] at hx'
      obtain ⟨c, hc, hcn⟩ := List.mem_map.mp hx
      have := List.find?_eq_none.mp hs c hc
      exact this ((names_equal_iff _ _).mpr (hcn.trans hx'))

/-- A sequence of registration calls keeps the invariant of the registry. -/
theorem registry_wf_register_all (env : Env) (calls : List RegCall) (s : CliState)
    (h : registry_wf env s.registry) : registry_wf env (register_all env s calls).registry := by
  induction calls generalizing s with
  | nil => exact h
  | cons c calls ih =>
    exact ih _ (registry_wf_register env s c.parent c.name c.func c.help h)

/-- After `odph_cli_init` and any registration calls the registry satisfies its
invariant. -/
theorem registry_wf_init_and_register (env : Env) (s : CliState) (inst : Nat)
    (param : odph_cli_param_t) (calls : List RegCall)
    (hs : s.lifecycle = Lifecycle.UNINITIALIZED) :
    registry_wf env (init_and_register env s inst param calls).registry := by
  apply registry_wf_register_all
  rw [init_of_uninitialized s inst param hs]
  exact ⟨List.nodup_nil, fun n hn => absurd hn (List.not_mem_nil _)⟩

/-- A call of `odph_cli_register_command` keeps every node of the registry,
its name, its handler and its children. -/
theorem register_keeps (env : Env) (s : CliState) (parent : Option Str) (name : Str)
    (func : Handler) (help : Option Str) (n : CommandNode) (hn : n ∈ s.registry) :
    ∃ m ∈ (odph_cli_register_command env s parent name func help).2.registry,
      m.name = n.name ∧ m.handler = n.handler ∧ ∀ c ∈ n.children, c ∈ m.children := by
  rcases register_cases env s parent name func help with
    ⟨-, h2⟩ | ⟨-, -, -, -, hreg⟩ | ⟨p, node, -, -, -, -, hreg⟩
  · rw [h2]; exact ⟨n, hn, rfl, rfl, fun c hc => hc⟩
  · rw [hreg]; exact ⟨n, List.mem_append_left _ hn, rfl, rfl, fun c hc => hc⟩
  · rw [hreg]; exact insert_child_forward _ _ _ n hn

/-- A sequence of registration calls keeps every node of the registry, its
name, its handler and its children. -/
theorem register_all_keeps (env : Env) (calls : List RegCall) (s : CliState)
    (n : CommandNode) (hn : n ∈ s.registry) :
    ∃ m ∈ (register_all env s calls).registry,
      m.name = n.name ∧ m.handler = n.handler ∧ ∀ c ∈ n.children, c ∈ m.children := by
  induction calls generalizing s n with
  | nil => exact ⟨n, hn, rfl, rfl, fun c hc => hc⟩
  | cons c calls ih =>
    obtain ⟨k, hk, k1, k2, k3⟩ := register_keeps env s c.parent c.name c.func c.help n hn
    obtain ⟨m, hm, m1, m2, m3⟩ := ih _ k hk
    exact ⟨m, hm, m1.trans k1, m2.trans k2, fun x hx => m3 x (k3 x hx)⟩

/-- The state after the calls `pre`, one more call and the calls `post`. -/
theorem init_and_register_split (env : Env) (s : CliState) (inst : Nat)
    (param : odph_cli_param_t) (pre post : List RegCall) (c : RegCall) :
    init_and_register env s inst param (pre ++ c :: post)
      = register_all env
          (odph_cli_register_command env (init_and_register env s inst param pre)
            c.parent c.name c.func c.help).2 post := by
  simp [init_and_register, register_all, List.foldl_append]

/-- When the lookup finds a top-level node for the first token and no child of
it for the second, the Dispatcher invokes the node with the tokens after the
first. -/
theorem dispatch_of_find_command (env : Env) (registry : List CommandNode)
    (node : CommandNode) (typed : Str) (rest : List (Str × Str))
    (hfind : find_command registry typed = some node)
    (hres : is_reserved env typed = false)
    (htyped : is_token typed)
    (hrest : ∀ p ∈ rest, is_separator p.1 ∧ is_token p.2)
    (hsub : ∀ p, rest.head? = some p → find_sub node.children p.2 = none) :
    dispatch env registry (join_line typed rest)
      = Dispatch.invoke node.handler (rest.map Prod.snd) := by
  unfold dispatch
  rw [tokenize_join_line typed rest htyped hrest]
  simp only [hres, Bool.false_eq_true, if_false]
  cases rest with
  | nil => simp [resolve, hfind]
  | cons p rest =>
    have := hsub p rfl
    simp [resolve, hfind, this]

/-- When the lookup finds a top-level node for the first token and a child of
it for the second, the Dispatcher invokes the child with the tokens after the
second. -/
theorem dispatch_of_find_sub (env : Env) (registry : List CommandNode)
    (node : CommandNode) (child : SubCommand) (typed sep typed_sub : Str)
    (rest : List (Str × Str))
    (hfind : find_command registry typed = some node)
    (hsub : find_sub node.children typed_sub = some child)
    (hres : is_reserved env typed = false)
    (htyped : is_token typed) (hsep : is_separator sep) (htyped_sub : is_token typed_sub)
    (hrest : ∀ p ∈ rest, is_separator p.1 ∧ is_token p.2) :
    dispatch env registry (join_line typed ((sep, typed_sub) :: rest))
      = Dispatch.invoke child.handler (rest.map Prod.snd) := by
  have hall : ∀ p ∈ (sep, typed_sub) :: rest, is_separator p.1 ∧ is_token p.2 := by
    intro p hp
    rcases List.mem_cons.mp hp with h | h
    · subst h; exact ⟨hsep, htyped_sub⟩
    · exact hrest p h
  unfold dispatch
  rw [tokenize_join_line typed _ htyped hall]
  simp [hres, resolve, hfind, hsub]

/-- A successful `odph_cli_start` leaves the server RUNNING with the registry
it found. -/
theorem start_success (env : Env) (s : CliState) (h : (odph_cli_start env s).1 = none) :
    (odph_cli_start env s).2.lifecycle = Lifecycle.RUNNING ∧
    (odph_cli_start env s).2.registry = s.registry := by
  unfold odph_cli_start at h ⊢
  split at h
  · split at h
    · simp at h
    · split at h
      · simp at h
      · split at h
        · simp at h
        · rename_i h1 h2 h3
          simp only [h1, h2, h3, if_false]
          exact ⟨rfl, rfl⟩
  · simp at h

/-- A client that connects to a RUNNING server is served. -/
theorem connect_running (env : Env) (t : CliState) (h : t.lifecycle = Lifecycle.RUNNING) :
    (client_step env t ClientAct.connect).lifecycle = Lifecycle.RUNNING ∧
    (client_step env t ClientAct.connect).client_open = true ∧
    (client_step env t ClientAct.connect).registry = t.registry := by
  by_cases hc : t.client_open = false
  · simp [client_step, h, hc]
  · have hc' : t.client_open = true := by simpa using hc
    simp [client_step, h, hc']

/-- A line that the Dispatcher resolves to a handler is logged as the
invocation of that handler when a client is connected. -/
theorem send_line_invoke (env : Env) (t : CliState) (line : Str) (handler : Handler)
    (argv : List Str) (h : t.lifecycle = Lifecycle.RUNNING) (hc : t.client_open = true)
    (hd : dispatch env t.registry line = Dispatch.invoke handler argv) :
    (client_step env t (ClientAct.send_line line)).trace
      = t.trace ++ [Event.handler_invoked handler argv] := by
  simp [client_step, h, hc, hd]

/-- A line that the Dispatcher resolves to a handler, sent by a client that
connects to a started server, is logged as the invocation of that handler. -/
theorem served_line (env : Env) (s : CliState) (line : Str) (handler : Handler)
    (argv : List Str) (hstart : (odph_cli_start env s).1 = none)
    (hd : dispatch env s.registry line = Dispatch.invoke handler argv) :
    (client_step env (client_step env (odph_cli_start env s).2 ClientAct.connect)
        (ClientAct.send_line line)).trace
      = (client_step env (odph_cli_start env s).2 ClientAct.connect).trace
          ++ [Event.handler_invoked handler argv] := by
  obtain ⟨h1, h2⟩ := start_success env s hstart
  obtain ⟨c1, c2, c3⟩ := connect_running env (odph_cli_start env s).2 h1
  exact send_line_invoke env _ line handler argv c1 c2 (by rw [c3, h2]; exact hd)

end Cli

namespace Cli

/-- C3 (as stated, refuted): a line made of a registered name followed by
tokens does not always invoke that command's handler with those tokens. After
registering `foo` with handler 1 and `one` under `foo` with handler 2, both
successfully, the line `foo one two` invokes the handler of the sub-command with
the single token `two`, and the line `one two`, the sub-command's name followed
by a token, is an unknown command. A command registered under the name `my cmd`,
or under the empty name, is not reached by its name followed by `one two`. -/
theorem line_of_name_and_tokens_refuted :
    retval (odph_cli_register_command env_ok state_init none "foo".toList 1 none).1 = 0 ∧
    retval (odph_cli_register_command env_ok state_foo (some "foo".toList) "one".toList 2
      none).1 = 0 ∧
    (find_command state_foo_one.registry "foo".toList).map (fun n => n.handler) = some 1 ∧
    dispatch env_ok state_foo_one.registry "foo one two".toList
      = Dispatch.invoke 2 ["two".toList] ∧
    dispatch env_ok state_foo_one.registry "foo one two".toList
      ≠ Dispatch.invoke 1 ["one".toList, "two".toList] ∧
    dispatch env_ok state_foo_one.registry "one two".toList = Dispatch.unknown ∧
    retval (odph_cli_register_command env_ok state_init none "my cmd".toList 3 none).1 = 0 ∧
    dispatch env_ok state_my_cmd.registry "my cmd one two".toList = Dispatch.unknown ∧
    retval (odph_cli_register_command env_ok state_init none [] 4 none).1 = 0 ∧
    dispatch env_ok state_empty_name.registry " one two".toList = Dispatch.unknown := by
  decide

/-- C3 (amended): after `odph_cli_init` and any sequence of registration calls,
(1) for a top-level command whose registration succeeded, whose name is not
empty and holds no whitespace, a line made of that name in any letter case
followed by whitespace-separated tokens, the first of which is not the name of
one of its sub-commands, makes the Dispatcher invoke the registered handler with
exactly those tokens, in order; (2) for a sub-command whose registration under a
parent succeeded, both names not empty and free of whitespace, a line made of
the parent's name, then its name, in any letter case, followed by
whitespace-separated tokens, makes the Dispatcher invoke the registered handler
with exactly the tokens after its name, in order. In both cases a started server
logs that invocation for a client that connects and sends the line. -/
theorem dispatch_registered :
    (∀ (env : Env) (s0 : CliState) (inst : Nat) (param : odph_cli_param_t)
        (pre post : List RegCall) (name : Str) (func : Handler) (help : Option Str)
        (typed : Str) (rest : List (Str × Str)),
      s0.lifecycle = Lifecycle.UNINITIALIZED →
      (odph_cli_register_command env (init_and_register env s0 inst param pre)
        none name func help).1 = none →
      is_token name →
      lower typed = lower name →
      (∀ q ∈ rest, is_separator q.1 ∧ is_token q.2) →
      (∀ q, rest.head? = some q →
        ∀ n ∈ (init_and_register env s0 inst param
            (pre ++ ⟨none, name, func, help⟩ :: post)).registry,
          lower n.name = lower name → ∀ c ∈ n.children, lower c.name ≠ lower q.2) →
      dispatch env
          (init_and_register env s0 inst param
            (pre ++ ⟨none, name, func, help⟩ :: post)).registry
          (join_line typed rest)
        = Dispatch.invoke func (rest.map Prod.snd) ∧
      (rest.map Prod.snd).length = rest.length ∧
      ((odph_cli_start env (init_and_register env s0 inst param
          (pre ++ ⟨none, name, func, help⟩ :: post))).1 = none →
        (client_step env (client_step env
            (odph_cli_start env (init_and_register env s0 inst param
              (pre ++ ⟨none, name, func, help⟩ :: post))).2 ClientAct.connect)
            (ClientAct.send_line (join_line typed rest))).trace
          = (client_step env
              (odph_cli_start env (init_and_register env s0 inst param
                (pre ++ ⟨none, name, func, help⟩ :: post))).2 ClientAct.connect).trace
            ++ [Event.handler_invoked func (rest.map Prod.snd)])) ∧
    (∀ (env : Env) (s0 : CliState) (inst : Nat) (param : odph_cli_param_t)
        (pre post : List RegCall) (parent name : Str) (func : Handler) (help : Option Str)
        (typed_parent sep typed : Str) (rest : List (Str × Str)),
      s0.lifecycle = Lifecycle.UNINITIALIZED →
      (odph_cli_register_command env (init_and_register env s0 inst param pre)
        (some parent) name func help).1 = none →
      is_token parent → is_token name →
      lower typed_parent = lower parent → lower typed = lower name →
      is_separator sep →
      (∀ q ∈ rest, is_separator q.1 ∧ is_token q.2) →
      dispatch env
          (init_and_register env s0 inst param
            (pre ++ ⟨some parent, name, func, help⟩ :: post)).registry
          (join_line typed_parent ((sep, typed) :: rest))
        = Dispatch.invoke func (rest.map Prod.snd) ∧
      (rest.map Prod.snd).length = rest.length ∧
      ((odph_cli_start env (init_and_register env s0 inst param
          (pre ++ ⟨some parent, name, func, help⟩ :: post))).1 = none →
        (client_step env (client_step env
            (odph_cli_start env (init_and_register env s0 inst param
              (pre ++ ⟨some parent, name, func, help⟩ :: post))).2 ClientAct.connect)
            (ClientAct.send_line (join_line typed_parent ((sep, typed) :: rest)))).trace
          = (client_step env
              (odph_cli_start env (init_and_register env s0 inst param
                (pre ++ ⟨some parent, name, func, help⟩ :: post))).2 ClientAct.connect).trace
            ++ [Event.handler_invoked func (rest.map Prod.snd)])) := by
  refine ⟨?_, ?_⟩
  · intro env s0 inst param pre post name func help typed rest hs hok htok hci hrest hsub
    have hwf := registry_wf_init_and_register env s0 inst param
      (pre ++ ⟨none, name, func, help⟩ :: post) hs
    have hsplit := init_and_register_split env s0 inst param pre post
      ⟨none, name, func, help⟩
    have hnode : ∃ m ∈ (init_and_register env s0 inst param
        (pre ++ ⟨none, name, func, help⟩ :: post)).registry,
        m.name = name ∧ m.handler = func := by
      rw [hsplit]
      rcases register_cases env (init_and_register env s0 inst param pre) none name func help
        with ⟨h1, -⟩ | ⟨-, -, -, -, hreg⟩ | ⟨p, node, hp, -⟩
      · exact absurd hok h1
      · obtain ⟨m, hm, m1, m2, -⟩ := register_all_keeps env post _
          ⟨name, help, func, []⟩ (by rw [hreg]; simp)
        exact ⟨m, hm, m1, m2⟩
      · cases hp
    obtain ⟨m, hm, m1, m2⟩ := hnode
    have hci' : lower typed = lower m.name := by rw [m1]; exact hci
    have hfind := find_command_of_mem _ hwf.1 m hm typed hci'
    have hres : is_reserved env typed = false := by
      rw [is_reserved_congr env typed m.name hci']; exact (hwf.2 m hm).1
    have hd := dispatch_of_find_command env _ m typed rest hfind hres
      (is_token_of_lower_eq typed name hci htok) hrest
      (fun q hq => find_sub_none_of_forall _ _ (hsub q hq m hm (by rw [m1])))
    rw [m2] at hd
    exact ⟨hd, by simp, fun hstart => served_line env _ _ func _ hstart hd⟩
  · intro env s0 inst param pre post parent name func help typed_parent sep typed rest hs hok
      htokp htok hcip hci hsep hrest
    have hwf := registry_wf_init_and_register env s0 inst param
      (pre ++ ⟨some parent, name, func, help⟩ :: post) hs
    have hsplit := init_and_register_split env s0 inst param pre post
      ⟨some parent, name, func, help⟩
    have hnode : ∃ m ∈ (init_and_register env s0 inst param
        (pre ++ ⟨some parent, name, func, help⟩ :: post)).registry,
        lower m.name = lower parent ∧ (SubCommand.mk name help func) ∈ m.children := by
      rw [hsplit]
      rcases register_cases env (init_and_register env s0 inst param pre) (some parent) name
        func help with ⟨h1, -⟩ | ⟨hp, -⟩ | ⟨p, node, hp, -, hf, -, hreg⟩
      · exact absurd hok h1
      · cases hp
      · cases hp
        have hself := find_command_insert_child_self _ parent ⟨name, help, func⟩ node hf
        have hmem := List.mem_of_find?_eq_some hself
        have hname0 := List.find?_some hf
        have hname : lower node.name = lower parent := (names_equal_iff _ _).mp hname0
        obtain ⟨m, hm, m1, -, m3⟩ := register_all_keeps env post _ _
          (by rw [hreg]; exact hmem)
        exact ⟨m, hm, by rw [m1]; exact hname, m3 _ (by simp)⟩
    obtain ⟨m, hm, m1, m2⟩ := hnode
    have hci' : lower typed_parent = lower m.name := by rw [m1]; exact hcip
    have hfind := find_command_of_mem _ hwf.1 m hm typed_parent hci'
    have hres : is_reserved env typed_parent = false := by
      rw [is_reserved_congr env typed_parent m.name hci']; exact (hwf.2 m hm).1
    have hfs := find_sub_of_mem m.children (hwf.2 m hm).2 ⟨name, help, func⟩ m2 typed hci
    have hd := dispatch_of_find_sub env _ m ⟨name, help, func⟩ typed_parent sep typed rest
      hfind hfs hres (is_token_of_lower_eq typed_parent parent hcip htokp) hsep
      (is_token_of_lower_eq typed name hci htok) hrest
    exact ⟨hd, by simp, fun hstart => served_line env _ _ func _ hstart hd⟩

/-- Witness for C3: after registering only `foo`, the line `FOO one two`
invokes its handler with the tokens `one`, `two`; after also registering `one`
under `foo`, the line `Foo ONE two` invokes the handler of `one` with the
token `two`. -/
theorem dispatch_registered_witness :
    dispatch env_ok state_foo.registry "FOO one two".toList
      = Dispatch.invoke 1 ["one".toList, "two".toList] ∧
    dispatch env_ok state_foo_one.registry "Foo ONE two".toList
      = Dispatch.invoke 2 ["two".toList] :=
  ⟨(dispatch_registered.1 env_ok CliState.initial 0 (odph_cli_param_init "odp".toList) [] []
      "foo".toList 1 none "FOO".toList
      [(" ".toList, "one".toList), (" ".toList, "two".toList)] rfl (by decide)
      ⟨by decide, by decide⟩ (by decide)
      (by
        intro q hq
        simp only [List.mem_cons, List.mem_singleton, List.not_mem_nil, or_false] at hq
        rcases hq with h | h <;> subst h <;>
          exact ⟨⟨by decide, by decide⟩, by decide, by decide⟩)
      (by
        intro q hq
        cases hq
        decide)).1,
    (dispatch_registered.2 env_ok CliState.initial 0 (odph_cli_param_init "odp".toList)
      [⟨none, "foo".toList, 1, none⟩] [] "foo".toList "one".toList 2 none "Foo".toList
      " ".toList "ONE".toList [(" ".toList, "two".toList)] rfl (by decide)
      ⟨by decide, by decide⟩ ⟨by decide, by decide⟩ (by decide) (by decide)
      ⟨by decide, by decide⟩
      (by
        intro q hq
        simp only [List.mem_singleton] at hq
        subst hq
        exact ⟨⟨by decide, by decide⟩, by decide, by decide⟩)).1⟩

end Cli
